import Mathlib

/-!
Verification of the business-point directory service.

This file shallowly embeds the domain logic of the repository
(`src/app/models.py`, `src/app/schemas.py`, `src/app/routes.py`,
`src/app/services/{activity_crud,phone_crud,organization_crud}.py`)
and proves the specified properties about it.

Modelling conventions:
* A database table is a `List` of row structures; SQLAlchemy sessions are
  modelled by explicit state passing (each mutating operation returns the
  new table contents).
* Autoincrement primary keys are modelled by `nextId` (one more than the
  largest id in the table).
* Python `float` values are idealised as exact rationals (`ℚ`) in the
  schema layer and as real numbers (`ℝ`) inside the haversine distance
  computation.
* Fallible operations return `Option`/`Except`.
-/

namespace BusinessPoint

/-- Row of the `activities` table (`models.Activity`): integer primary key,
name, nullable self-referencing `parent_id`. -/
structure Activity where
  id : Nat
  name : String
  parent_id : Option Nat
deriving DecidableEq, Repr

/-- Row of the `phones` table (`models.Phone`): integer primary key, globally
unique `number`, nullable foreign key `organization_id`. -/
structure Phone where
  id : Nat
  number : String
  organization_id : Option Nat
deriving DecidableEq, Repr

/-- Row of the `buildings` table (`models.Building`): integer primary key,
address and a coordinate pair (floats idealised as rationals). -/
structure Building where
  id : Nat
  address : String
  latitude : ℚ
  longitude : ℚ
deriving DecidableEq, Repr

namespace schemas

/-- `schemas.ActivityCreate`: payload for activity creation. -/
structure ActivityCreate where
  name : String
  parent_id : Option Nat
deriving DecidableEq, Repr

/-- `schemas.ActivityUpdate`: partial-update payload; a `none` field is an
absent (null-defaulted) field. -/
structure ActivityUpdate where
  name : Option String
  parent_id : Option Nat
deriving DecidableEq, Repr

/-- `schemas.PhoneCreate`: payload for `PhoneService.create_or_update`. -/
structure PhoneCreate where
  number : String
  organization_id : Nat
deriving DecidableEq, Repr

end schemas

/-- Auto-increment primary key generation: SQLite hands a fresh id that is one
more than the largest id ever used; for a table that only grows this is one
more than the current maximum. -/
def nextId (ids : List Nat) : Nat := ids.foldr max 0 + 1

namespace ActivityService

/-- `ActivityService.get`: `SELECT ... WHERE Activity.id == activity_id`,
`scalar_one_or_none`.  With unique ids the first match is the row. -/
def get (db : List Activity) (activity_id : Nat) : Option Activity :=
  db.find? (fun a => a.id == activity_id)

/-- `ActivityService.create`: inserts a row with the requested name and
parent_id and a fresh autoincrement id, commits, and returns the row. -/
def create (db : List Activity) (activity : schemas.ActivityCreate) :
    Activity × List Activity :=
  let a : Activity := ⟨nextId (db.map (·.id)), activity.name, activity.parent_id⟩
  (a, db ++ [a])

/-- `ActivityService.update`: fetch by id (returning `none` when the id does
not resolve); apply `name`/`parent_id` from the patch only when they are not
`None`; commit and return the updated row together with the new table. -/
def update (db : List Activity) (activity_id : Nat) (u : schemas.ActivityUpdate) :
    Option (Activity × List Activity) :=
  match get db activity_id with
  | none => none
  | some a =>
    let a' : Activity :=
      { a with
        name := u.name.getD a.name
        parent_id := match u.parent_id with
          | some p => some p
          | none => a.parent_id }
    some (a', db.map (fun b => if b.id = activity_id then a' else b))

/-- Modelled from the spec: `computeLevel` "walks the parent chain from the
candidate parent to a root" with root = level 1 (spec §4.1, glossary).  No
such function exists under `src/`; the walk is bounded by a fuel argument
(the table size), which is enough for any stored forest. -/
def computeLevelFuel (db : List Activity) : Nat → Nat → Nat
  | 0, _ => 1
  | fuel+1, aid =>
    match get db aid with
    | none => 1
    | some a =>
      match a.parent_id with
      | none => 1
      | some p => computeLevelFuel db fuel p + 1

/-- Modelled from the spec: level of the activity `aid` (root = level 1),
computed by walking the parent chain (spec §4.1). -/
def computeLevel (db : List Activity) (aid : Nat) : Nat :=
  computeLevelFuel db db.length aid

/-- Modelled from the spec: `ActivityService.is_level_less_than_3` is called
from `routes.create_activity` (src/app/routes.py line 106) but is defined
nowhere under `src/`; per spec §4.1 the check succeeds exactly when the
candidate parent's level is below 3 ("fails with `DepthExceeded` if level ≥ 3
already, meaning a 4th level would be created"). -/
def is_level_less_than_3 (db : List Activity) (aid : Nat) : Bool :=
  decide (computeLevel db aid < 3)

end ActivityService

/-- Typed failures surfaced by the request layer (spec §6): depth-limit
violations (the `HTTPException` returned by `routes.create_activity`) and
missing entities (404s). -/
inductive RouteError where
  | depthExceeded
  | notFound
deriving DecidableEq, Repr

namespace routes

/-- `routes.create_activity`: when the request carries a truthy `parent_id`
(Python `if activity.parent_id:` — both `None` and `0` are falsy and skip the
check), validate the parent's level with `is_level_less_than_3` and fail with
the depth error if the check refuses; otherwise insert via
`ActivityService.create`. -/
def create_activity (db : List Activity) (activity : schemas.ActivityCreate) :
    Except RouteError (Activity × List Activity) :=
  let passes : Bool :=
    match activity.parent_id with
    | none => true
    | some p => if p = 0 then true else ActivityService.is_level_less_than_3 db p
  if passes then .ok (ActivityService.create db activity)
  else .error .depthExceeded

/-- `routes.update_activity`: delegate to `ActivityService.update`; a `none`
result becomes a 404, otherwise the updated activity is returned. -/
def update_activity (db : List Activity) (activity_id : Nat)
    (u : schemas.ActivityUpdate) : Except RouteError (Activity × List Activity) :=
  match ActivityService.update db activity_id u with
  | none => .error .notFound
  | some r => .ok r

end routes

/-- `PhoneRaceConditionError` (the spec's `PhoneReconciliationFailed`). -/
inductive PhoneError where
  | raceCondition
deriving DecidableEq, Repr

namespace PhoneService

/-- `PhoneService.get_by_number`: `SELECT ... WHERE Phone.number == number`,
`scalar_one_or_none`.  Under the uniqueness constraint on `number` at most one
row matches, so the first match is the row. -/
def get_by_number (db : List Phone) (number : String) : Option Phone :=
  db.find? (fun p => p.number == number)

/-- `PhoneService.get_phones_by_numbers`: empty input short-circuits to an
empty result without a query; otherwise `SELECT ... WHERE number IN numbers`. -/
def get_phones_by_numbers (db : List Phone) (numbers : List String) : List Phone :=
  if numbers.isEmpty then []
  else db.filter (fun p => decide (p.number ∈ numbers))

/-- `PhoneService.create_or_update`.

Concurrency model: `db` is the committed store as seen by the initial lookup;
`dbAtCommit` is the committed store at the moment the INSERT is flushed
(concurrent writers may have changed it in between); `dbAtRefetch` is the
committed store at the re-fetch performed after a rollback.  A sequential
(interference-free) call instantiates `dbAtCommit := db`.  The uniqueness
constraint on `number` makes the INSERT's commit raise `IntegrityError`
exactly when the number is already present at commit time; the rollback
discards the attempted insert, leaving `dbAtRefetch` (other writers'
committed rows survive the rollback). -/
def create_or_update (db dbAtCommit dbAtRefetch : List Phone) (freshId : Nat)
    (phone : schemas.PhoneCreate) : Except PhoneError (Phone × List Phone) :=
  match get_by_number db phone.number with
  | some db_phone =>
    let p' := { db_phone with organization_id := some phone.organization_id }
    .ok (p', db.map (fun q => if q.id = db_phone.id then p' else q))
  | none =>
    let newPhone : Phone := ⟨freshId, phone.number, some phone.organization_id⟩
    match get_by_number dbAtCommit phone.number with
    | none => .ok (newPhone, dbAtCommit ++ [newPhone])
    | some _ =>
      match get_by_number dbAtRefetch phone.number with
      | some db_phone =>
        let p' := { db_phone with organization_id := some phone.organization_id }
        .ok (p', dbAtRefetch.map (fun q => if q.id = db_phone.id then p' else q))
      | none => .error .raceCondition

end PhoneService

/-- Row of the `organizations` table (`models.Organization`) together with its
`organization_activity` association rows: integer primary key, name, nullable
foreign key `building_id`, and the set of associated activity ids.  The
organization's phones live on the `phones` table via `Phone.organization_id`
(`back_populates` pairing of `Organization.phones` / `Phone.organization`). -/
structure Organization where
  id : Nat
  name : String
  building_id : Option Nat
  activity_ids : List Nat
deriving DecidableEq, Repr

/-- The store slice touched by `OrganizationService`. -/
structure OrgStore where
  orgs : List Organization
  phones : List Phone
  activities : List Activity
deriving DecidableEq, Repr

/-- The phone set of an organization: the rows whose `organization_id` points
at it (`models.Organization.phones`). -/
def phonesOf (st : OrgStore) (org_id : Nat) : List Phone :=
  st.phones.filter (fun p => p.organization_id == some org_id)

namespace schemas

/-- `schemas.OrganizationCreate` (after the duplicate-numbers validator). -/
structure OrganizationCreate where
  name : String
  building_id : Nat
  phone_numbers : List String
  activity_ids : List Nat
deriving DecidableEq, Repr

/-- `schemas.OrganizationUpdate`: partial-update payload; a `none` field is an
absent (null-defaulted) field. -/
structure OrganizationUpdate where
  name : Option String
  building_id : Option Nat
  phone_numbers : Option (List String)
  activity_ids : Option (List Nat)
deriving DecidableEq, Repr

end schemas

namespace OrganizationService

/-- `OrganizationService.create`: resolve the requested numbers to existing
phone rows (whatever organization currently owns them), build fresh rows for
the missing numbers, resolve the activity ids (silently dropping ids that do
not resolve), and persist the organization with those phones and activities
attached.  Assigning an existing `Phone` row into the new organization's
`phones` relationship rewrites its `organization_id` on flush
(`back_populates`), detaching it from its previous owner; fresh rows are
created owned by the new organization.  `newOrgId` / `freshPhoneId` stand for
the autoincrement ids handed out on flush. -/
def create (st : OrgStore) (req : schemas.OrganizationCreate)
    (newOrgId freshPhoneId : Nat) : Organization × OrgStore :=
  let requested := fun (p : Phone) => decide (p.number ∈ req.phone_numbers)
  let existing := PhoneService.get_phones_by_numbers st.phones req.phone_numbers
  let existingNumbers := existing.map (·.number)
  let newNumbers := req.phone_numbers.filter (fun n => decide (n ∉ existingNumbers))
  let newPhones := newNumbers.enum.map (fun e => Phone.mk (freshPhoneId + e.1) e.2 (some newOrgId))
  let resolved := (req.activity_ids.filterMap (ActivityService.get st.activities)).map (·.id)
  let org : Organization := ⟨newOrgId, req.name, some req.building_id, resolved⟩
  (org,
   { st with
     orgs := st.orgs ++ [org]
     phones :=
       st.phones.map (fun p =>
         if requested p then { p with organization_id := some newOrgId } else p)
       ++ newPhones })

/-- `OrganizationService.update`: fetch by id (`none` when the id does not
resolve); apply each patch field only when it is not `None`.  A provided
`phone_numbers` list replaces the full phone set: the listed numbers are
claimed (existing rows reassigned, missing ones created) and the rows the
organization previously owned but that are not listed become orphans, removed
by the `delete-orphan` cascade on `Organization.phones`.  A provided
`activity_ids` list replaces the association set with the ids that resolve. -/
def update (st : OrgStore) (org_id : Nat) (u : schemas.OrganizationUpdate)
    (freshPhoneId : Nat) : Option (Organization × OrgStore) :=
  match st.orgs.find? (fun o => o.id == org_id) with
  | none => none
  | some o =>
    let o' : Organization :=
      { o with
        name := u.name.getD o.name
        building_id := match u.building_id with
          | some b => some b
          | none => o.building_id
        activity_ids := match u.activity_ids with
          | some ids => (ids.filterMap (ActivityService.get st.activities)).map (·.id)
          | none => o.activity_ids }
    let phones' : List Phone :=
      match u.phone_numbers with
      | none => st.phones
      | some numbers =>
        let requested := fun (p : Phone) => decide (p.number ∈ numbers)
        let existing := PhoneService.get_phones_by_numbers st.phones numbers
        let existingNumbers := existing.map (·.number)
        let newNumbers := numbers.filter (fun n => decide (n ∉ existingNumbers))
        let newPhones := newNumbers.enum.map (fun e => Phone.mk (freshPhoneId + e.1) e.2 (some org_id))
        (st.phones.filter (fun p => requested p || !(p.organization_id == some org_id))).map
          (fun p => if requested p then { p with organization_id := some org_id } else p)
        ++ newPhones
    some (o',
      { st with
        orgs := st.orgs.map (fun x => if x.id = org_id then o' else x)
        phones := phones' })

end OrganizationService

namespace schemas

/-- `schemas.Unit`: the closed set of radius units. -/
inductive Unit where
  | meter
  | kilometer
  | mile
deriving DecidableEq, Repr

/-- `Unit.to_meters`: fixed conversion factors — meter is the identity,
kilometer multiplies by 1000, mile by 1609.344. -/
def Unit.to_meters : Unit → ℚ → ℚ
  | .meter, v => v
  | .kilometer, v => v * 1000
  | .mile, v => v * ((1609344 : ℚ) / 1000)

/-- `schemas.GeoSearchRadius` (a validated instance). -/
structure GeoSearchRadius where
  latitude : ℚ
  longitude : ℚ
  radius : ℚ
  unit : schemas.Unit
deriving DecidableEq, Repr

/-- The `InvalidGeoQuery` failure (a pydantic `ValidationError` on
`GeoSearchRadius`). -/
inductive GeoError where
  | invalidGeoQuery
deriving DecidableEq, Repr

/-- Validated construction of `GeoSearchRadius`: the three field validators
(`latitude_range`, `longitude_range`, `radius_positive`) each raise on their
field, and any raise fails the whole request with `InvalidGeoQuery`. -/
def mkGeoSearchRadius (latitude longitude radius : ℚ) (unit : schemas.Unit) :
    Except GeoError GeoSearchRadius :=
  if -90 ≤ latitude ∧ latitude ≤ 90 then
    if -180 ≤ longitude ∧ longitude ≤ 180 then
      if 0 < radius then .ok ⟨latitude, longitude, radius, unit⟩
      else .error .invalidGeoQuery
    else .error .invalidGeoQuery
  else .error .invalidGeoQuery

end schemas

/-- Real-number comparison, decided classically (stands for the float
comparison in the source; floats are idealised as exact reals). -/
noncomputable def realLe (x y : ℝ) : Bool := @decide (x ≤ y) (Classical.propDecidable _)

/-- The `haversine` helper of `OrganizationService.get_by_radius`: great-circle
distance in meters with Earth radius 6,371,000 m; degree inputs are converted
to radians first. -/
noncomputable def haversine (lat1 lon1 lat2 lon2 : ℝ) : ℝ :=
  let rlat1 := lat1 * Real.pi / 180
  let rlon1 := lon1 * Real.pi / 180
  let rlat2 := lat2 * Real.pi / 180
  let rlon2 := lon2 * Real.pi / 180
  let dlat := rlat2 - rlat1
  let dlon := rlon2 - rlon1
  let a := Real.sin (dlat / 2) ^ 2 +
    Real.cos rlat1 * Real.cos rlat2 * Real.sin (dlon / 2) ^ 2
  6371000 * (2 * Real.arcsin (Real.sqrt a))

namespace OrganizationService

/-- `OrganizationService.get_by_radius`: convert the radius to meters, load
every building, keep the ids of those within haversine distance (inclusive
boundary `<=`), and — returning `[]` outright when none qualifies — return the
organizations whose `building_id` is in the selected id set (SQL `IN`: a NULL
`building_id` never matches). -/
noncomputable def get_by_radius (buildings : List Building)
    (orgs : List Organization) (area : schemas.GeoSearchRadius) :
    List Organization :=
  let radius_in_m : ℚ := area.unit.to_meters area.radius
  let nearby_building_ids : List Nat :=
    (buildings.filter (fun b =>
      realLe (haversine area.latitude area.longitude b.latitude b.longitude)
        (radius_in_m : ℝ))).map (·.id)
  if nearby_building_ids.isEmpty then []
  else orgs.filter (fun o => (nearby_building_ids.map some).contains o.building_id)

end OrganizationService

namespace ActivityService

/-- The ids of the rows whose `parent_id` is `p` — the WHERE/JOIN condition
shared by both recursive CTEs. -/
def childIds (db : List Activity) (p : Nat) : List Nat :=
  (db.filter (fun a => a.parent_id == some p)).map (·.id)

/-- One round of the recursive CTE: keep everything collected so far and add
the children of every collected id (the `union_all` of the anchor with the
recursive part), deduplicated as by `res.unique()`. -/
def expand (db : List Activity) (acc : List Nat) : List Nat :=
  (acc ++ acc.flatMap (childIds db)).dedup

/-- The id set produced by the recursive CTE anchored at `base`: the closure
of `base` under the child relation.  Iterating the round function
`db.length` times reaches the closure's fixpoint for every table (proved
below), matching the set the database's recursive evaluation produces. -/
def cteClosure (db : List Activity) (base : List Nat) : List Nat :=
  (expand db)^[db.length] base

/-- The id list denoted by the recursive CTE that `get_all_children_ids`
builds — the query that line 150 should have executed as a `select` —
anchored at the rows with `parent_id = parent_id`, results deduplicated as by
`res.unique()`. -/
def descendantIdsQuery (db : List Activity) (parent_id : Nat) : List Nat :=
  (cteClosure db (childIds db parent_id)).dedup

end ActivityService

/-- A storage-layer failure: `Session.execute` in SQLAlchemy 2.x (which this
repository requires through `DeclarativeBase`/`async_sessionmaker` in db.py)
accepts only `Executable` statements and raises `ArgumentError`
("Executable SQL or text() construct expected") on anything else. -/
inductive DbError where
  | argumentError
deriving DecidableEq, Repr

namespace ActivityService

/-- `ActivityService.get_all_children_ids`: builds the recursive CTE, then
executes the bare id column `cte_query.c.id` (activity_crud.py line 150).  A
`ColumnElement` is not `Executable`, so every call raises `ArgumentError`
before any row is read; the id list the CTE denotes (`descendantIdsQuery`)
is never returned. -/
def get_all_children_ids (db : List Activity) (parent_id : Nat) :
    Except DbError (List Nat) :=
  .error .argumentError

end ActivityService

/-- `schemas.ActivityTree`: a reconstructed tree node. -/
inductive ActivityTree where
  | mk (id : Nat) (name : String) (parent_id : Option Nat)
       (children : List ActivityTree)

/-- The row data carried by a reconstructed node. -/
def ActivityTree.row : ActivityTree → Activity
  | .mk i n p _ => ⟨i, n, p⟩

/-- The children list of a reconstructed node. -/
def ActivityTree.children : ActivityTree → List ActivityTree
  | .mk _ _ _ cs => cs

/-- The id of a reconstructed node. -/
def ActivityTree.tid : ActivityTree → Nat
  | .mk i _ _ _ => i

namespace ActivityService

/-- `attach_children`: rebuild a node from the flat CTE row set `acts` — the
node's children are the rows of `acts` whose `parent_id` is the node's id
(`children_map`), each rebuilt recursively.  The Python recursion terminates
on the stored (finite, acyclic) forest; here it is bounded by a fuel
argument, and `acts.length` is shown below to be enough fuel for any stored
forest. -/
def buildNode (acts : List Activity) : Nat → Activity → ActivityTree
  | 0, a => .mk a.id a.name a.parent_id []
  | fuel+1, a =>
    .mk a.id a.name a.parent_id
      ((acts.filter (fun b => b.parent_id == some a.id)).map (buildNode acts fuel))

/-- The rows collected by the row-level recursive CTE of
`get_activity_tree`: anchored at the rows with `parent_id = pid` (SQLAlchemy
renders `== None` as `IS NULL`), closed under the child join.  With unique
ids these are exactly the rows whose id lies in the id-level closure. -/
def treeRows (db : List Activity) (pid : Option Nat) : List Activity :=
  let baseIds := (db.filter (fun a => a.parent_id == pid)).map (·.id)
  db.filter (fun a => decide (a.id ∈ cteClosure db baseIds))

/-- The forest denoted by the tree CTE together with the in-memory
reconstruction of `get_activity_tree` — what the function would return had
line 177 executed a `select` of the CTE: collect the CTE rows, group them by
`parent_id`, and return `children_map.get(parent_id)` — the collected rows
anchored directly at `pid` — with children attached recursively. -/
def activityTreeQuery (db : List Activity) (pid : Option Nat) :
    List ActivityTree :=
  let acts := treeRows db pid
  (acts.filter (fun a => a.parent_id == pid)).map (buildNode acts acts.length)

/-- `ActivityService.get_activity_tree`: builds the row-level recursive CTE,
then executes the bare `CTE` object (activity_crud.py line 177) instead of a
`select` of it.  A `CTE` is a `FromClause`, not an `Executable`, so every
call raises `ArgumentError` before any row is read; the reconstruction
(`activityTreeQuery`) is unreachable. -/
def get_activity_tree (db : List Activity) (pid : Option Nat) :
    Except DbError (List ActivityTree) :=
  .error .argumentError

end ActivityService

mutual
/-- Every node occurring in a reconstructed tree (the node itself and the
nodes of its subtrees). -/
def allNodes : ActivityTree → List ActivityTree
  | .mk i n p cs => .mk i n p cs :: allNodesL cs
/-- Every node occurring in a reconstructed forest. -/
def allNodesL : List ActivityTree → List ActivityTree
  | [] => []
  | t :: ts => allNodes t ++ allNodesL ts
end

/-- `Reaches db p x`: the activity id `x` is reachable from the id `p` by
following child edges transitively (a child edge goes from a row's
`parent_id` to the row's own id). -/
inductive Reaches (db : List Activity) (p : Nat) : Nat → Prop where
  | child {a : Activity} :
      a ∈ db → a.parent_id = some p → Reaches db p a.id
  | tail {q : Nat} {a : Activity} :
      Reaches db p q → a ∈ db → a.parent_id = some q → Reaches db p a.id

/-- Finset shadow of one CTE round (`ActivityService.expand`), used to reason
about the closure. -/
def expandF (db : List Activity) (s : Finset Nat) : Finset Nat :=
  s ∪ s.biUnion (fun p => (ActivityService.childIds db p).toFinset)

/-- The set of ids stored in a table. -/
def allIds (db : List Activity) : Finset Nat := (db.map (·.id)).toFinset

/-! ## Theorems -/

/-- Membership in `childIds`: the child rows of `p`. -/
theorem mem_childIds {db : List Activity} {p x : Nat} :
    x ∈ ActivityService.childIds db p ↔
      ∃ a ∈ db, a.parent_id = some p ∧ a.id = x := by
  unfold ActivityService.childIds
  rw [List.mem_map]
  constructor
  · rintro ⟨a, ha, rfl⟩
    have := List.mem_filter.mp ha
    exact ⟨a, this.1, by simpa using this.2, rfl⟩
  · rintro ⟨a, ha, hp, rfl⟩
    exact ⟨a, List.mem_filter.mpr ⟨ha, by simpa using hp⟩, rfl⟩

/-- Membership in one CTE round. -/
theorem mem_expand {db : List Activity} {acc : List Nat} {x : Nat} :
    x ∈ ActivityService.expand db acc ↔
      x ∈ acc ∨ ∃ p ∈ acc, x ∈ ActivityService.childIds db p := by
  simp [ActivityService.expand]

/-- The list-level round and its Finset shadow agree. -/
theorem expand_toFinset (db : List Activity) (acc : List Nat) :
    (ActivityService.expand db acc).toFinset = expandF db acc.toFinset := by
  ext x
  simp [mem_expand, expandF]

/-- Iterating the round commutes with taking Finsets. -/
theorem iterate_expand_toFinset (db : List Activity) (acc : List Nat) :
    ∀ n, ((ActivityService.expand db)^[n] acc).toFinset =
      (expandF db)^[n] acc.toFinset := by
  intro n
  induction n with
  | zero => rfl
  | succ n ih =>
    rw [Function.iterate_succ_apply', Function.iterate_succ_apply',
      expand_toFinset, ih]

/-- One round only adds ids. -/
theorem subset_expandF (db : List Activity) (s : Finset Nat) :
    s ⊆ expandF db s := Finset.subset_union_left

/-- Every child id is a stored id. -/
theorem childIds_subset_allIds (db : List Activity) (p : Nat) :
    (ActivityService.childIds db p).toFinset ⊆ allIds db := by
  intro x hx
  rw [List.mem_toFinset] at hx
  obtain ⟨a, ha, _, rfl⟩ := mem_childIds.mp hx
  exact List.mem_toFinset.mpr (List.mem_map_of_mem (·.id) ha)

/-- A round stays inside any superset of the stored ids. -/
theorem expandF_subset {db : List Activity} {s A : Finset Nat}
    (hs : s ⊆ A) (hA : allIds db ⊆ A) : expandF db s ⊆ A := by
  refine Finset.union_subset hs (Finset.biUnion_subset.mpr (fun p _ => ?_))
  exact (childIds_subset_allIds db p).trans hA

/-- Iterates of an inflationary map contain their start. -/
theorem subset_iterate {f : Finset Nat → Finset Nat}
    (hf : ∀ s, s ⊆ f s) (s : Finset Nat) : ∀ n, s ⊆ f^[n] s := by
  intro n
  induction n with
  | zero => exact subset_rfl
  | succ n ih =>
    rw [Function.iterate_succ_apply']
    exact ih.trans (hf _)

/-- C7: a geo radius query fails with `InvalidGeoQuery` if and only if its
center latitude is outside [-90, 90], its center longitude is outside
[-180, 180], or its radius is not strictly greater than 0; every query
satisfying all three conditions is accepted. -/
theorem c7_geo_validation (latitude longitude radius : ℚ) (unit : schemas.Unit) :
    (schemas.mkGeoSearchRadius latitude longitude radius unit =
        .error .invalidGeoQuery ↔
      ¬(-90 ≤ latitude ∧ latitude ≤ 90) ∨
      ¬(-180 ≤ longitude ∧ longitude ≤ 180) ∨ radius ≤ 0) ∧
    ((-90 ≤ latitude ∧ latitude ≤ 90) → (-180 ≤ longitude ∧ longitude ≤ 180) →
      0 < radius →
      schemas.mkGeoSearchRadius latitude longitude radius unit =
        .ok ⟨latitude, longitude, radius, unit⟩) := by
  unfold schemas.mkGeoSearchRadius
  constructor
  · split_ifs with h1 h2 h3 <;> simp_all
  · intro h1 h2 h3
    rw [if_pos h1, if_pos h2, if_pos h3]

/-- Witness for C7 at a concrete accepted query. -/
theorem c7_geo_validation_witness :
    schemas.mkGeoSearchRadius 55 37 1 .kilometer = .ok ⟨55, 37, 1, .kilometer⟩ :=
  (c7_geo_validation 55 37 1 .kilometer).2 (by norm_num) (by norm_num) (by norm_num)

/-- C8: radius unit conversion is multiplication by a fixed factor
(kilometer ×1000, mile ×1609.344, meter identity), hence a query with
radius 1 kilometer returns exactly the organizations of the same query with
radius 1000 meters, for every center and building set. -/
theorem c8_unit_conversion :
    (∀ v : ℚ, schemas.Unit.to_meters .kilometer v = v * 1000 ∧
      schemas.Unit.to_meters .mile v = v * ((1609344 : ℚ) / 1000) ∧
      schemas.Unit.to_meters .meter v = v) ∧
    (∀ (buildings : List Building) (orgs : List Organization) (lat lon : ℚ),
      OrganizationService.get_by_radius buildings orgs ⟨lat, lon, 1, .kilometer⟩ =
        OrganizationService.get_by_radius buildings orgs ⟨lat, lon, 1000, .meter⟩) := by
  refine ⟨fun v => ⟨rfl, rfl, rfl⟩, fun buildings orgs lat lon => ?_⟩
  simp only [OrganizationService.get_by_radius, schemas.Unit.to_meters]
  norm_num

/-- C2: creating an activity under an existing parent of level `L`
(root = level 1) fails with the depth error exactly when `L ≥ 3` (a fourth
level would be created); when the check passes the node is inserted with the
requested name and parent_id. -/
theorem c2_create_depth_check (db : List Activity) (req : schemas.ActivityCreate)
    (p : Nat) (hp : req.parent_id = some p) (hp0 : p ≠ 0)
    (hex : ∃ a ∈ db, a.id = p) :
    (routes.create_activity db req = .error .depthExceeded ↔
      3 ≤ ActivityService.computeLevel db p) ∧
    (ActivityService.computeLevel db p < 3 →
      routes.create_activity db req =
        .ok (⟨nextId (db.map (·.id)), req.name, some p⟩,
             db ++ [⟨nextId (db.map (·.id)), req.name, some p⟩])) := by
  clear hex
  unfold routes.create_activity ActivityService.is_level_less_than_3
  rw [hp]
  simp only [if_neg hp0]
  constructor
  · constructor
    · intro h
      by_contra hlt
      rw [decide_eq_true (by omega : ActivityService.computeLevel db p < 3)] at h
      simp at h
    · intro h
      rw [decide_eq_false (by omega : ¬ ActivityService.computeLevel db p < 3)]
      simp
  · intro h
    rw [decide_eq_true h]
    simp [ActivityService.create, hp]

/-- Witness for C2: in a three-level chain, creating under the level-3 leaf
fails with the depth error, and creating under the level-2 node succeeds. -/
theorem c2_create_depth_check_witness :
    routes.create_activity
        [⟨1, "a", none⟩, ⟨2, "b", some 1⟩, ⟨3, "c", some 2⟩]
        ⟨"d", some 3⟩ = .error .depthExceeded ∧
    routes.create_activity
        [⟨1, "a", none⟩, ⟨2, "b", some 1⟩, ⟨3, "c", some 2⟩]
        ⟨"d", some 2⟩ =
      .ok (⟨4, "d", some 2⟩,
           [⟨1, "a", none⟩, ⟨2, "b", some 1⟩, ⟨3, "c", some 2⟩, ⟨4, "d", some 2⟩]) := by
  constructor
  · exact (c2_create_depth_check _ ⟨"d", some 3⟩ 3 rfl (by decide)
      (by decide)).1.mpr (by decide)
  · exact (c2_create_depth_check _ ⟨"d", some 2⟩ 2 rfl (by decide)
      (by decide)).2 (by decide)

/-- C3: the activity update is a partial update that never re-validates the
depth-3 invariant: it returns not-found exactly when the id does not resolve,
and whenever the id resolves it succeeds, applying any requested parent_id
unconditionally (in particular reparenting succeeds regardless of the
resulting depth). -/
theorem c3_update_no_depth_revalidation (db : List Activity) (activity_id : Nat)
    (u : schemas.ActivityUpdate) :
    (routes.update_activity db activity_id u = .error .notFound ↔
      ∀ a ∈ db, a.id ≠ activity_id) ∧
    (∀ a, ActivityService.get db activity_id = some a →
      routes.update_activity db activity_id u =
        .ok ({ a with
                name := u.name.getD a.name
                parent_id := match u.parent_id with
                  | some p => some p
                  | none => a.parent_id },
             db.map (fun b => if b.id = activity_id then
               { a with
                  name := u.name.getD a.name
                  parent_id := match u.parent_id with
                    | some p => some p
                    | none => a.parent_id } else b))) := by
  constructor
  · cases hfind : ActivityService.get db activity_id with
    | none =>
      have hupd : routes.update_activity db activity_id u = .error .notFound := by
        simp only [routes.update_activity, ActivityService.update, hfind]
      rw [hupd]
      refine iff_of_true rfl (fun a ha hid => ?_)
      have := List.find?_eq_none.mp hfind a ha
      simp [hid] at this
    | some a =>
      have hupd : ∃ r, routes.update_activity db activity_id u = .ok r := by
        simp only [routes.update_activity, ActivityService.update, hfind]
        exact ⟨_, rfl⟩
      obtain ⟨r, hr⟩ := hupd
      rw [hr]
      refine iff_of_false (by simp) (fun h => ?_)
      have hmem := List.mem_of_find?_eq_some hfind
      have hid := List.find?_some hfind
      exact h a hmem (by simpa using hid)
  · intro a hfind
    simp only [routes.update_activity, ActivityService.update, hfind]

/-- Two members of a list with duplicate-free keys and the same key are the
same element. -/
theorem key_inj {α β : Type _} (f : α → β) {l : List α}
    (h : (l.map f).Nodup) {a b : α} (ha : a ∈ l) (hb : b ∈ l)
    (hfab : f a = f b) : a = b := by
  induction l with
  | nil => cases ha
  | cons x t ih =>
    rw [List.map_cons, List.nodup_cons] at h
    rcases List.mem_cons.mp ha with rfl | ha' <;>
      rcases List.mem_cons.mp hb with rfl | hb'
    · rfl
    · exact absurd (hfab ▸ List.mem_map_of_mem f hb') h.1
    · exact absurd (hfab ▸ List.mem_map_of_mem f ha') h.1
    · exact ih h.2 ha' hb'

/-- A list is unchanged by a map that fixes each of its members. -/
theorem map_eq_self_of_fixed {α : Type _} {f : α → α} {l : List α}
    (h : ∀ a ∈ l, f a = a) : l.map f = l :=
  (List.map_congr_left h).trans (List.map_id l)

/-- Witness for C3: reparenting the level-2 node under the level-3 leaf
succeeds even though the subtree then sits deeper than 3 levels. -/
theorem c3_update_no_depth_revalidation_witness :
    routes.update_activity
        [⟨1, "a", none⟩, ⟨2, "b", some 1⟩, ⟨3, "c", some 2⟩, ⟨4, "d", some 3⟩]
        2 ⟨none, some 4⟩ =
      .ok (⟨2, "b", some 4⟩,
           [⟨1, "a", none⟩, ⟨2, "b", some 4⟩, ⟨3, "c", some 2⟩, ⟨4, "d", some 3⟩]) := by
  have h := (c3_update_no_depth_revalidation
    [⟨1, "a", none⟩, ⟨2, "b", some 1⟩, ⟨3, "c", some 2⟩, ⟨4, "d", some 3⟩]
    2 ⟨none, some 4⟩).2 ⟨2, "b", some 1⟩ (by decide)
  simpa using h

/-- The number-miss characterisation of `get_by_number`. -/
theorem get_by_number_none {db : List Phone} {n : String} :
    PhoneService.get_by_number db n = none ↔ ∀ q ∈ db, q.number ≠ n := by
  simp [PhoneService.get_by_number, List.find?_eq_none]

/-- A `get_by_number` hit is a member carrying the number. -/
theorem get_by_number_some {db : List Phone} {n : String} {p : Phone}
    (h : PhoneService.get_by_number db n = some p) : p ∈ db ∧ p.number = n :=
  ⟨List.mem_of_find?_eq_some h, by simpa using List.find?_some h⟩

/-- Updating the unique row holding a number (by its id) and filtering by
that number returns exactly the updated row. -/
theorem filter_upd_by_id {db : List Phone} {dp p' : Phone}
    (hid : (db.map (·.id)).Nodup) (hnum : (db.map (·.number)).Nodup)
    (hmem : dp ∈ db) (hpn : p'.number = dp.number) (hpid : p'.id = dp.id) :
    (db.map (fun q => if q.id = dp.id then p' else q)).filter
      (fun q => q.number == dp.number) = [p'] := by
  induction db with
  | nil => cases hmem
  | cons h t ih =>
    rw [List.map_cons, List.nodup_cons] at hid hnum
    rcases List.mem_cons.mp hmem with rfl | hmem'
    · rw [List.map_cons, if_pos rfl]
      have ht : t.map (fun q => if q.id = dp.id then p' else q) = t := by
        refine map_eq_self_of_fixed (fun q hq => if_neg (fun hqid => ?_))
        exact hid.1 (hqid ▸ List.mem_map_of_mem (·.id) hq)
      rw [ht, List.filter_cons, if_pos (by simp [hpn])]
      have : t.filter (fun q => q.number == dp.number) = [] := by
        refine List.filter_eq_nil.mpr (fun q hq => ?_)
        simp only [beq_iff_eq, decide_eq_true_eq]
        intro hqn
        exact hnum.1 (hqn ▸ List.mem_map_of_mem (·.number) hq)
      rw [this]
    · have hhid : h.id ≠ dp.id := fun hh =>
        hid.1 (hh ▸ List.mem_map_of_mem (·.id) hmem')
      have hhnum : h.number ≠ dp.number := fun hh =>
        hnum.1 (hh ▸ List.mem_map_of_mem (·.number) hmem')
      rw [List.map_cons, if_neg hhid, List.filter_cons,
        if_neg (by simp [hhnum])]
      exact ih hid.2 hnum.2 hmem'

/-- Claiming a number that is present in a duplicate-free store (no
interference) succeeds and leaves exactly one row with that number, owned by
the claimant. -/
theorem claim_existing {db : List Phone} {n : String} (o2 fid : Nat)
    (hid : (db.map (·.id)).Nodup) (hnum : (db.map (·.number)).Nodup)
    (hex : ∃ q ∈ db, q.number = n) :
    ∃ r2 db2, PhoneService.create_or_update db db db fid ⟨n, o2⟩ = .ok (r2, db2) ∧
      db2.filter (fun q => q.number == n) = [r2] ∧
      r2.number = n ∧ r2.organization_id = some o2 := by
  cases hget : PhoneService.get_by_number db n with
  | none =>
    obtain ⟨q, hq, hqn⟩ := hex
    exact absurd hqn (get_by_number_none.mp hget q hq)
  | some dp =>
    obtain ⟨hmem, hdpn⟩ := get_by_number_some hget
    refine ⟨{ dp with organization_id := some o2 },
      db.map (fun q => if q.id = dp.id then
        { dp with organization_id := some o2 } else q), ?_, ?_, hdpn, rfl⟩
    · simp only [PhoneService.create_or_update, hget]
    · rw [← hdpn]
      exact filter_upd_by_id hid hnum hmem rfl rfl

/-- C1: `create_or_update` is an upsert — without interference it always
succeeds; it fails with the race error exactly when the initial lookup
misses, the insert violates uniqueness, and the re-fetch still finds
nothing; on success exactly one row carries the number, owned by the most
recent claimant; and the sequential create-then-claim pair leaves exactly
one row for the number, owned by the second claimant. -/
theorem c1_phone_create_or_claim :
    (∀ (db : List Phone) (fid : Nat) (ph : schemas.PhoneCreate),
      ∃ r db', PhoneService.create_or_update db db db fid ph = .ok (r, db')) ∧
    (∀ (db dbC dbR : List Phone) (fid : Nat) (ph : schemas.PhoneCreate),
      PhoneService.create_or_update db dbC dbR fid ph = .error .raceCondition ↔
        PhoneService.get_by_number db ph.number = none ∧
        PhoneService.get_by_number dbC ph.number ≠ none ∧
        PhoneService.get_by_number dbR ph.number = none) ∧
    (∀ (db dbC dbR : List Phone) (fid : Nat) (ph : schemas.PhoneCreate)
        (r : Phone) (db' : List Phone),
      (db.map (·.id)).Nodup → (db.map (·.number)).Nodup →
      (dbR.map (·.id)).Nodup → (dbR.map (·.number)).Nodup →
      PhoneService.create_or_update db dbC dbR fid ph = .ok (r, db') →
      r.number = ph.number ∧ r.organization_id = some ph.organization_id ∧
      db'.filter (fun q => q.number == ph.number) = [r]) ∧
    (∀ (db : List Phone) (n : String) (o1 o2 fid1 fid2 : Nat)
        (r1 : Phone) (db1 : List Phone),
      (db.map (·.id)).Nodup → (db.map (·.number)).Nodup →
      fid1 ∉ db.map (·.id) →
      PhoneService.create_or_update db db db fid1 ⟨n, o1⟩ = .ok (r1, db1) →
      ∃ r2 db2,
        PhoneService.create_or_update db1 db1 db1 fid2 ⟨n, o2⟩ = .ok (r2, db2) ∧
        db2.filter (fun q => q.number == n) = [r2] ∧
        r2.number = n ∧ r2.organization_id = some o2) := by
  refine ⟨?_, ?_, ?_, ?_⟩
  · intro db fid ph
    cases hget : PhoneService.get_by_number db ph.number with
    | none =>
      refine ⟨⟨fid, ph.number, some ph.organization_id⟩,
        db ++ [⟨fid, ph.number, some ph.organization_id⟩], ?_⟩
      simp only [PhoneService.create_or_update, hget]
    | some dp =>
      refine ⟨{ dp with organization_id := some ph.organization_id },
        db.map (fun q => if q.id = dp.id then
          { dp with organization_id := some ph.organization_id } else q), ?_⟩
      simp only [PhoneService.create_or_update, hget]
  · intro db dbC dbR fid ph
    constructor
    · intro herr
      cases hget : PhoneService.get_by_number db ph.number with
      | some dp =>
        simp only [PhoneService.create_or_update, hget] at herr
        exact Except.noConfusion herr
      | none =>
        cases hgetC : PhoneService.get_by_number dbC ph.number with
        | none =>
          simp only [PhoneService.create_or_update, hget, hgetC] at herr
          exact Except.noConfusion herr
        | some q0 =>
          cases hgetR : PhoneService.get_by_number dbR ph.number with
          | some dp =>
            simp only [PhoneService.create_or_update, hget, hgetC, hgetR] at herr
            exact Except.noConfusion herr
          | none => exact ⟨rfl, by simp, rfl⟩
    · rintro ⟨h1, h2, h3⟩
      cases hgetC : PhoneService.get_by_number dbC ph.number with
      | none => exact absurd hgetC h2
      | some q0 => simp only [PhoneService.create_or_update, h1, hgetC, h3]
  · intro db dbC dbR fid ph r db' hdbI hdbN hdbRI hdbRN hupd
    cases hget : PhoneService.get_by_number db ph.number with
    | some dp =>
      obtain ⟨hmem, hdpn⟩ := get_by_number_some hget
      simp only [PhoneService.create_or_update, hget] at hupd
      injection hupd with hupd
      injection hupd with h1 h2
      subst h1
      subst h2
      refine ⟨hdpn, rfl, ?_⟩
      rw [← hdpn]
      exact filter_upd_by_id hdbI hdbN hmem rfl rfl
    | none =>
      cases hgetC : PhoneService.get_by_number dbC ph.number with
      | none =>
        simp only [PhoneService.create_or_update, hget, hgetC] at hupd
        injection hupd with hupd
        injection hupd with h1 h2
        subst h1
        subst h2
        refine ⟨rfl, rfl, ?_⟩
        rw [List.filter_append]
        have hC : dbC.filter (fun q => q.number == ph.number) = [] :=
          List.filter_eq_nil.mpr (fun q hq => by
            simp [get_by_number_none.mp hgetC q hq])
        rw [hC]
        simp [List.filter]
      | some q0 =>
        cases hgetR : PhoneService.get_by_number dbR ph.number with
        | none =>
          simp only [PhoneService.create_or_update, hget, hgetC, hgetR] at hupd
          exact Except.noConfusion hupd
        | some dp =>
          obtain ⟨hmem, hdpn⟩ := get_by_number_some hgetR
          simp only [PhoneService.create_or_update, hget, hgetC, hgetR] at hupd
          injection hupd with hupd
          injection hupd with h1 h2
          subst h1
          subst h2
          refine ⟨hdpn, rfl, ?_⟩
          rw [← hdpn]
          exact filter_upd_by_id hdbRI hdbRN hmem rfl rfl
  · intro db n o1 o2 fid1 fid2 r1 db1 hI hN hf hupd
    cases hget : PhoneService.get_by_number db n with
    | some dp =>
      obtain ⟨hmem, hdpn⟩ := get_by_number_some hget
      simp only [PhoneService.create_or_update, hget] at hupd
      injection hupd with hupd
      injection hupd with h1 h2
      have hids : db1.map (·.id) = db.map (·.id) := by
        rw [← h2, List.map_map]
        refine List.map_congr_left (fun q hq => ?_)
        by_cases hqid : q.id = dp.id
        · simp [Function.comp, hqid]
        · simp [Function.comp, hqid]
      have hnums : db1.map (·.number) = db.map (·.number) := by
        rw [← h2, List.map_map]
        refine List.map_congr_left (fun q hq => ?_)
        by_cases hqid : q.id = dp.id
        · have : q = dp := key_inj (·.id) hI hq hmem hqid
          subst this
          simp [Function.comp, hqid]
        · simp [Function.comp, hqid]
      have hex : ∃ q ∈ db1, q.number = n := by
        refine ⟨{ dp with organization_id := some o1 }, ?_, hdpn⟩
        rw [← h2]
        have := List.mem_map_of_mem
          (fun q => if q.id = dp.id then
            { dp with organization_id := some o1 } else q) hmem
        simpa using this
      exact claim_existing o2 fid2 (hids ▸ hI) (hnums ▸ hN) hex
    | none =>
      simp only [PhoneService.create_or_update, hget] at hupd
      injection hupd with hupd
      injection hupd with h1 h2
      have hI1 : (db1.map (·.id)).Nodup := by
        rw [← h2, List.map_append, List.nodup_append]
        refine ⟨hI, by simp, ?_⟩
        simp only [List.map_cons, List.map_nil]
        intro x hx hx'
        simp at hx'
        exact hf (hx' ▸ hx)
      have hN1 : (db1.map (·.number)).Nodup := by
        rw [← h2, List.map_append, List.nodup_append]
        refine ⟨hN, by simp, ?_⟩
        simp only [List.map_cons, List.map_nil]
        intro x hx hx'
        simp at hx'
        subst hx'
        obtain ⟨q, hq, hqn⟩ := List.mem_map.mp hx
        exact get_by_number_none.mp hget q hq hqn
      have hex : ∃ q ∈ db1, q.number = n := by
        refine ⟨⟨fid1, n, some o1⟩, ?_, rfl⟩
        rw [← h2]
        simp
      exact claim_existing o2 fid2 hI1 hN1 hex

/-- Witness for C1 at concrete inputs: claiming "555" for organization 1 on
an empty store and then for organization 2 leaves exactly one row, owned by
organization 2. -/
theorem c1_phone_create_or_claim_witness :
    ∃ r2 db2,
      PhoneService.create_or_update [⟨1, "555", some 1⟩] [⟨1, "555", some 1⟩]
          [⟨1, "555", some 1⟩] 2 ⟨"555", 2⟩ = .ok (r2, db2) ∧
      db2.filter (fun q => q.number == "555") = [r2] ∧
      r2.number = "555" ∧ r2.organization_id = some 2 :=
  c1_phone_create_or_claim.2.2.2 [] "555" 1 2 1 2 ⟨1, "555", some 1⟩
    [⟨1, "555", some 1⟩] (by simp) (by simp) (by simp) (by rfl)

/-- After `db.length` rounds the closure is a fixpoint of the round map. -/
theorem iterate_expandF_fix (db : List Activity) (base : Finset Nat)
    (hb : base ⊆ allIds db) :
    expandF db ((expandF db)^[db.length] base) =
      (expandF db)^[db.length] base := by
  set N := db.length with hN
  have hiter : ∀ k, (expandF db)^[k] base ⊆ allIds db := by
    intro k
    induction k with
    | zero => exact hb
    | succ k ih =>
      rw [Function.iterate_succ_apply']
      exact expandF_subset ih subset_rfl
  by_cases hfix : ∃ k < N, (expandF db)^[k + 1] base = (expandF db)^[k] base
  · obtain ⟨k, hkN, hk⟩ := hfix
    have hfixk : expandF db ((expandF db)^[k] base) = (expandF db)^[k] base :=
      (Function.iterate_succ_apply' (expandF db) k base).symm.trans hk
    have hstable : ∀ m, (expandF db)^[k + m] base = (expandF db)^[k] base := by
      intro m
      induction m with
      | zero => rfl
      | succ m ih =>
        have hkm : k + (m + 1) = (k + m) + 1 := by omega
        rw [hkm, Function.iterate_succ_apply', ih, hfixk]
    have hNk : N = k + (N - k) := by omega
    rw [hNk, hstable, hfixk]
  · push_neg at hfix
    have hgrow : ∀ k, k ≤ N → k ≤ ((expandF db)^[k] base).card := by
      intro k
      induction k with
      | zero => intro _; exact Nat.zero_le _
      | succ k ih =>
        intro hkN
        have hk := ih (by omega)
        have hss : (expandF db)^[k] base ⊂ (expandF db)^[k + 1] base := by
          refine Finset.ssubset_iff_subset_ne.mpr ⟨?_, ?_⟩
          · rw [Function.iterate_succ_apply']
            exact subset_expandF db _
          · exact fun h => hfix k (by omega) h.symm
        have := Finset.card_lt_card hss
        omega
    have hNcard : N ≤ ((expandF db)^[N] base).card := hgrow N le_rfl
    have hallcard : (allIds db).card ≤ N := by
      have h1 := List.toFinset_card_le (db.map (·.id))
      simpa [allIds, hN] using h1
    have heq : (expandF db)^[N] base = allIds db :=
      Finset.eq_of_subset_of_card_le (hiter N) (by omega)
    rw [heq]
    apply Finset.Subset.antisymm
    · exact expandF_subset subset_rfl subset_rfl
    · exact subset_expandF db _

/-- The anchor rows are contained in the closure. -/
theorem subset_cteClosure (db : List Activity) (base : List Nat) :
    ∀ x ∈ base, x ∈ ActivityService.cteClosure db base := by
  intro x hx
  unfold ActivityService.cteClosure
  rw [← List.mem_toFinset, iterate_expand_toFinset]
  exact subset_iterate (subset_expandF db) base.toFinset db.length
    (List.mem_toFinset.mpr hx)

/-- The closure of an anchor of stored ids is closed under the child join. -/
theorem cteClosure_closed {db : List Activity} {base : List Nat}
    (hb : ∀ y ∈ base, y ∈ db.map (·.id)) {p x : Nat}
    (hp : p ∈ ActivityService.cteClosure db base)
    (hx : x ∈ ActivityService.childIds db p) :
    x ∈ ActivityService.cteClosure db base := by
  have hbF : base.toFinset ⊆ allIds db := by
    intro y hy
    exact List.mem_toFinset.mpr (hb y (List.mem_toFinset.mp hy))
  have hfix := iterate_expandF_fix db base.toFinset hbF
  unfold ActivityService.cteClosure at hp ⊢
  rw [← List.mem_toFinset, iterate_expand_toFinset] at hp ⊢
  rw [← hfix]
  exact Finset.mem_union_right _
    (Finset.mem_biUnion.mpr ⟨p, hp, List.mem_toFinset.mpr hx⟩)

/-- Everything in the closure is an anchor id or reachable from one. -/
theorem cteClosure_sound {db : List Activity} {base : List Nat} {x : Nat}
    (hx : x ∈ ActivityService.cteClosure db base) :
    x ∈ base ∨ ∃ r ∈ base, Reaches db r x := by
  unfold ActivityService.cteClosure at hx
  suffices h : ∀ n (acc : List Nat),
      (∀ y ∈ acc, y ∈ base ∨ ∃ r ∈ base, Reaches db r y) →
      ∀ y ∈ (ActivityService.expand db)^[n] acc,
        y ∈ base ∨ ∃ r ∈ base, Reaches db r y by
    exact h db.length base (fun y hy => .inl hy) x hx
  intro n
  induction n with
  | zero => exact fun acc hacc y hy => hacc y hy
  | succ n ih =>
    intro acc hacc y hy
    rw [Function.iterate_succ_apply'] at hy
    rcases mem_expand.mp hy with hy' | ⟨p, hp, hchild⟩
    · exact ih acc hacc y hy'
    · obtain ⟨a, ha, hap, rfl⟩ := mem_childIds.mp hchild
      rcases ih acc hacc p hp with hpb | ⟨r, hr, hreach⟩
      · exact .inr ⟨p, hpb, Reaches.child ha hap⟩
      · exact .inr ⟨r, hr, Reaches.tail hreach ha hap⟩

/-- Everything reachable from an anchor id is in the closure. -/
theorem cteClosure_complete {db : List Activity} {base : List Nat}
    (hb : ∀ y ∈ base, y ∈ db.map (·.id)) {r x : Nat}
    (hr : r ∈ base) (hx : Reaches db r x) :
    x ∈ ActivityService.cteClosure db base := by
  induction hx with
  | child ha hap =>
    exact cteClosure_closed hb (subset_cteClosure db base r hr)
      (mem_childIds.mpr ⟨_, ha, hap, rfl⟩)
  | tail _ ha hap ih =>
    exact cteClosure_closed hb ih (mem_childIds.mpr ⟨_, ha, hap, rfl⟩)

/-- Reachability concatenates. -/
theorem reaches_trans {db : List Activity} {p q x : Nat}
    (h1 : Reaches db p q) (h2 : Reaches db q x) : Reaches db p x := by
  induction h2 with
  | child ha hap => exact .tail h1 ha hap
  | tail _ ha hap ih => exact .tail ih ha hap

/-- The descendant CTE's denotation is exactly the set of activity ids
reachable from `r` by following child edges transitively, with no duplicate
ids, and — whenever the stored graph has no cycle through `r` — never
includes `r` itself. -/
theorem descendantIdsQuery_spec (db : List Activity) (r : Nat) :
    (∀ x, x ∈ ActivityService.descendantIdsQuery db r ↔ Reaches db r x) ∧
    (ActivityService.descendantIdsQuery db r).Nodup ∧
    (¬ Reaches db r r → r ∉ ActivityService.descendantIdsQuery db r) := by
  have hbase : ∀ y ∈ ActivityService.childIds db r, y ∈ db.map (·.id) := by
    intro y hy
    obtain ⟨a, ha, _, rfl⟩ := mem_childIds.mp hy
    exact List.mem_map_of_mem (·.id) ha
  have hmem : ∀ x,
      x ∈ ActivityService.descendantIdsQuery db r ↔ Reaches db r x := by
    intro x
    unfold ActivityService.descendantIdsQuery
    rw [List.mem_dedup]
    constructor
    · intro hx
      rcases cteClosure_sound hx with hxb | ⟨q, hq, hreach⟩
      · obtain ⟨a, ha, hap, rfl⟩ := mem_childIds.mp hxb
        exact Reaches.child ha hap
      · obtain ⟨a, ha, hap, rfl⟩ := mem_childIds.mp hq
        exact reaches_trans (Reaches.child ha hap) hreach
    · intro hx
      induction hx with
      | child ha hap =>
        exact subset_cteClosure db _ _ (mem_childIds.mpr ⟨_, ha, hap, rfl⟩)
      | tail _ ha hap ih =>
        exact cteClosure_closed hbase ih (mem_childIds.mpr ⟨_, ha, hap, rfl⟩)
  exact ⟨hmem, List.nodup_dedup _, fun h hr' => h ((hmem r).mp hr')⟩

/-- C4 is a code bug: every call of `get_all_children_ids` fails with the
SQLAlchemy `ArgumentError` — activity_crud.py line 150 executes the bare id
column instead of a `select` of it — while the recursive CTE the call builds
denotes exactly the claimed descendant set (here `[2, 3]` below the root of
a three-row chain). -/
theorem c4_descendant_ids_bug :
    ActivityService.get_all_children_ids
        [⟨1, "a", none⟩, ⟨2, "b", some 1⟩, ⟨3, "c", some 2⟩] 1 =
      .error .argumentError ∧
    ActivityService.descendantIdsQuery
        [⟨1, "a", none⟩, ⟨2, "b", some 1⟩, ⟨3, "c", some 2⟩] 1 = [2, 3] :=
  ⟨rfl, by decide⟩

/-- Rebuilding a node preserves its row data, whatever the fuel. -/
theorem buildNode_row (acts : List Activity) (n : Nat) (a : Activity) :
    (ActivityService.buildNode acts n a).row = a := by
  cases n <;> rfl

/-- Rebuilding a node preserves its id, whatever the fuel. -/
theorem buildNode_tid (acts : List Activity) (n : Nat) (a : Activity) :
    (ActivityService.buildNode acts n a).tid = a.id := by
  cases n <;> rfl

/-- A tree lists itself and the nodes of its subtrees. -/
theorem allNodes_eq (t : ActivityTree) :
    allNodes t = t :: allNodesL t.children := by
  cases t
  rfl

/-- Membership in the node list of a forest. -/
theorem mem_allNodesL {ts : List ActivityTree} {x : ActivityTree} :
    x ∈ allNodesL ts ↔ ∃ t ∈ ts, x ∈ allNodes t := by
  induction ts with
  | nil => simp [allNodesL]
  | cons t ts ih => simp [allNodesL, ih]

/-- The node list of a mapped forest flattens blockwise. -/
theorem allNodesL_map {α : Type _} (g : α → ActivityTree) (l : List α) :
    allNodesL (l.map g) = l.flatMap (fun c => allNodes (g c)) := by
  induction l with
  | nil => rfl
  | cons c l ih => simp [allNodesL, ih]

/-- Ranks increase strictly along child edges, hence along reachability. -/
theorem reaches_rank {db : List Activity} {m : Nat → Nat}
    (hm : ∀ a ∈ db, ∀ p, a.parent_id = some p → m p < m a.id)
    {p x : Nat} (hx : Reaches db p x) : m p < m x := by
  induction hx with
  | child ha hap => exact hm _ ha _ hap
  | tail _ ha hap ih => exact ih.trans (hm _ ha _ hap)

/-- A reachability derivation ends in a stored row, stepping from `p`
directly or through an intermediate id. -/
theorem reaches_inv_bottom {db : List Activity} {p x : Nat}
    (hx : Reaches db p x) :
    ∃ a ∈ db, a.id = x ∧
      (a.parent_id = some p ∨ ∃ q, a.parent_id = some q ∧ Reaches db p q) := by
  cases hx with
  | child ha hap => exact ⟨_, ha, rfl, .inl hap⟩
  | tail hr ha hap => exact ⟨_, ha, rfl, .inr ⟨_, hap, hr⟩⟩

/-- A reachability derivation starts with a direct child of `p`. -/
theorem reaches_iff_step {db : List Activity} {p x : Nat} :
    Reaches db p x ↔
      ∃ c ∈ db, c.parent_id = some p ∧ (c.id = x ∨ Reaches db c.id x) := by
  constructor
  · intro hx
    induction hx with
    | child ha hap => exact ⟨_, ha, hap, .inl rfl⟩
    | tail _ ha hap ih =>
      obtain ⟨c, hc, hcp, hcx⟩ := ih
      rcases hcx with rfl | hr
      · exact ⟨c, hc, hcp, .inr (Reaches.child ha hap)⟩
      · exact ⟨c, hc, hcp, .inr (Reaches.tail hr ha hap)⟩
  · rintro ⟨c, hc, hcp, rfl | hr⟩
    · exact Reaches.child hc hcp
    · exact reaches_trans (Reaches.child hc hcp) hr

/-- In a ranked forest with unique ids, the inclusive descendant sets of two
distinct rows sharing the same parent value are disjoint. -/
theorem subtree_disjoint {db : List Activity} {m : Nat → Nat}
    (hid : (db.map (·.id)).Nodup)
    (hm : ∀ a ∈ db, ∀ p, a.parent_id = some p → m p < m a.id)
    {c₁ c₂ : Activity} (h1 : c₁ ∈ db) (h2 : c₂ ∈ db) (hne : c₁ ≠ c₂)
    (hpar : c₁.parent_id = c₂.parent_id) :
    ∀ x, (c₁.id = x ∨ Reaches db c₁.id x) →
      (c₂.id = x ∨ Reaches db c₂.id x) → False := by
  suffices H : ∀ k x, m x = k → (c₁.id = x ∨ Reaches db c₁.id x) →
      (c₂.id = x ∨ Reaches db c₂.id x) → False by
    exact fun x => H (m x) x rfl
  intro k
  induction k using Nat.strong_induction_on with
  | _ k ih =>
    have hsym : ∀ (c c' : Activity), c ∈ db → c' ∈ db → c ≠ c' →
        c.parent_id = c'.parent_id → ∀ y, c.id = y → Reaches db c'.id y → False := by
      intro c c' hc hc' hcne hcpar y hy hr
      obtain ⟨rx, hrx, hrxid, hd⟩ := reaches_inv_bottom hr
      have hrxc : rx = c := key_inj (·.id) hid hrx hc (by simp [hrxid, hy])
      subst hrxc
      rcases hd with hd1 | ⟨q, hq, hrq⟩
      · have : c'.parent_id = some c'.id := by rw [← hcpar, hd1]
        exact lt_irrefl _ (hm _ hc' _ this)
      · have hq' : c'.parent_id = some q := by rw [← hcpar, hq]
        exact absurd (reaches_rank hm hrq) (not_lt.mpr (le_of_lt (hm _ hc' _ hq')))
    intro x hmx hin1 hin2
    rcases hin1 with rfl | hr1
    · rcases hin2 with h | hr2
      · exact hne (key_inj (·.id) hid h1 h2 (by simp [h]))
      · exact hsym c₁ c₂ h1 h2 hne hpar c₁.id rfl hr2
    · rcases hin2 with rfl | hr2
      · exact hsym c₂ c₁ h2 h1 (fun h => hne h.symm) hpar.symm c₂.id rfl hr1
      · obtain ⟨rx1, hm1, hid1, hd1⟩ := reaches_inv_bottom hr1
        obtain ⟨rx2, hm2, hid2, hd2⟩ := reaches_inv_bottom hr2
        have hrx12 : rx1 = rx2 :=
          key_inj (·.id) hid hm1 hm2 (by simp [hid1, hid2])
        subst hrx12
        rcases hd1 with hp1 | ⟨q1, hq1, hrq1⟩ <;>
          rcases hd2 with hp2 | ⟨q2, hq2, hrq2⟩
        · refine hne (key_inj (·.id) hid h1 h2 ?_)
          have := hp1.symm.trans hp2
          simpa using this
        · have hq2' : q2 = c₁.id := by
            have := hp1.symm.trans hq2
            simpa using this.symm
          subst hq2'
          have hlt : m c₁.id < k := by
            rw [← hmx, ← hid1]
            exact hm _ hm1 _ hp1
          exact ih _ hlt c₁.id rfl (.inl rfl) (.inr hrq2)
        · have hq1' : q1 = c₂.id := by
            have := hp2.symm.trans hq1
            simpa using this.symm
          subst hq1'
          have hlt : m c₂.id < k := by
            rw [← hmx, ← hid1]
            exact hm _ hm1 _ hp2
          exact ih _ hlt c₂.id rfl (.inr hrq1) (.inl rfl)
        · have hq12 : q1 = q2 := by
            have := hq1.symm.trans hq2
            simpa using this
          subst hq12
          have hlt : m q1 < k := by
            rw [← hmx, ← hid1]
            exact hm _ hm1 _ hq1
          exact ih _ hlt q1 rfl (.inr hrq1) (.inr hrq2)

/-- A strict version of `countP` monotonicity. -/
theorem countP_lt_countP {α : Type _} {l : List α} {p q : α → Bool}
    (hsub : ∀ b ∈ l, p b = true → q b = true) {x : α} (hx : x ∈ l)
    (hqx : q x = true) (hpx : p x = false) : l.countP p < l.countP q := by
  induction l with
  | nil => cases hx
  | cons h t ih =>
    rw [List.countP_cons, List.countP_cons]
    rcases List.mem_cons.mp hx with rfl | hx'
    · have hmono : t.countP p ≤ t.countP q :=
        List.countP_mono_left (fun b hb => hsub b (List.mem_cons_of_mem _ hb))
      simp only [hqx, hpx, Bool.false_eq_true, if_false, if_true]
      omega
    · have hlt := ih (fun b hb => hsub b (List.mem_cons_of_mem _ hb)) hx'
      by_cases hph : p h = true
      · rw [hph, hsub h (List.mem_cons_self h t) hph]
        simp only [if_true]
        omega
      · rw [Bool.not_eq_true] at hph
        rw [hph]
        simp only [Bool.false_eq_true, if_false]
        split <;> omega

/-- Master lemma for the tree reconstruction: with fuel at least the number
of strictly-higher-ranked rows, the rebuilt subtree of a stored row `a` has
duplicate-free node ids forming exactly `a.id` plus its descendant closure,
every rebuilt node carries a stored row, and every rebuilt node's children
list is exactly the stored child rows of its id. -/
theorem buildNode_master (acts : List Activity) (m : Nat → Nat)
    (hid : (acts.map (·.id)).Nodup)
    (hm : ∀ a ∈ acts, ∀ p, a.parent_id = some p → m p < m a.id) :
    ∀ (n : Nat) (a : Activity), a ∈ acts →
      acts.countP (fun b => decide (m a.id < m b.id)) ≤ n →
      ((allNodes (ActivityService.buildNode acts n a)).map ActivityTree.tid).Nodup ∧
      ((allNodes (ActivityService.buildNode acts n a)).map ActivityTree.tid).toFinset =
        insert a.id (ActivityService.descendantIdsQuery acts a.id).toFinset ∧
      (∀ x ∈ allNodes (ActivityService.buildNode acts n a), x.row ∈ acts) ∧
      (∀ x ∈ allNodes (ActivityService.buildNode acts n a),
        x.children.map ActivityTree.row =
          acts.filter (fun b => b.parent_id == some x.tid)) := by
  intro n
  induction n with
  | zero =>
    intro a ha hcount
    have hnochild : acts.filter (fun b => b.parent_id == some a.id) = [] := by
      refine List.filter_eq_nil_iff.mpr (fun b hb hbp => ?_)
      have hlt : m a.id < m b.id := hm b hb a.id (by simpa using hbp)
      have hpos : 0 < acts.countP (fun b => decide (m a.id < m b.id)) :=
        List.countP_pos_iff.mpr ⟨b, hb, by simpa using hlt⟩
      omega
    have hnoreach : ∀ x, ¬ Reaches acts a.id x := by
      intro x hx
      obtain ⟨c, hc, hcp, _⟩ := reaches_iff_step.mp hx
      have hcmem : c ∈ acts.filter (fun b => b.parent_id == some a.id) :=
        List.mem_filter.mpr ⟨hc, by simpa using hcp⟩
      rw [hnochild] at hcmem
      cases hcmem
    have hdesc : (ActivityService.descendantIdsQuery acts a.id).toFinset = ∅ := by
      ext x
      simp only [List.mem_toFinset, Finset.not_mem_empty, iff_false]
      intro hx
      exact hnoreach x (((descendantIdsQuery_spec acts a.id).1 x).mp hx)
    refine ⟨?_, ?_, ?_, ?_⟩
    · simp [ActivityService.buildNode, allNodes, allNodesL]
    · simp [ActivityService.buildNode, allNodes, allNodesL, hdesc,
        ActivityTree.tid]
    · intro x hx
      simp only [ActivityService.buildNode, allNodes, allNodesL,
        List.mem_singleton] at hx
      subst hx
      simpa [ActivityTree.row] using ha
    · intro x hx
      simp only [ActivityService.buildNode, allNodes, allNodesL,
        List.mem_singleton] at hx
      subst hx
      simp [ActivityTree.children, ActivityTree.tid, hnochild]
  | succ k ih =>
    intro a ha hcount
    have hcsmem : ∀ c ∈ acts.filter (fun b => b.parent_id == some a.id),
        c ∈ acts ∧ c.parent_id = some a.id := by
      intro c hc
      have h := List.mem_filter.mp hc
      exact ⟨h.1, by simpa using h.2⟩
    have hcsfuel : ∀ c ∈ acts.filter (fun b => b.parent_id == some a.id),
        acts.countP (fun b => decide (m c.id < m b.id)) ≤ k := by
      intro c hc
      obtain ⟨hcmem, hcp⟩ := hcsmem c hc
      have hlt := countP_lt_countP (l := acts)
        (p := fun b => decide (m c.id < m b.id))
        (q := fun b => decide (m a.id < m b.id))
        (fun b hb hpb => by
          have h1 : m c.id < m b.id := by simpa using hpb
          have h2 : m a.id < m c.id := hm c hcmem a.id hcp
          simpa using h2.trans h1)
        hcmem (by simpa using hm c hcmem a.id hcp) (by simp)
      omega
    have hflat : (allNodes (ActivityService.buildNode acts (k+1) a)).map
        ActivityTree.tid =
        a.id :: (acts.filter (fun b => b.parent_id == some a.id)).flatMap
          (fun c => (allNodes (ActivityService.buildNode acts k c)).map
            ActivityTree.tid) := by
      show ((ActivityTree.mk a.id a.name a.parent_id
          ((acts.filter (fun b => b.parent_id == some a.id)).map
            (ActivityService.buildNode acts k)) ::
          allNodesL ((acts.filter (fun b => b.parent_id == some a.id)).map
            (ActivityService.buildNode acts k))).map ActivityTree.tid) = _
      rw [allNodesL_map, List.map_cons, List.map_flatMap]
      rfl
    have hblock_mem : ∀ c ∈ acts.filter (fun b => b.parent_id == some a.id),
        ∀ x, x ∈ (allNodes (ActivityService.buildNode acts k c)).map
            ActivityTree.tid ↔ (c.id = x ∨ Reaches acts c.id x) := by
      intro c hc x
      obtain ⟨hcmem, _⟩ := hcsmem c hc
      rw [← List.mem_toFinset, (ih c hcmem (hcsfuel c hc)).2.1]
      simp only [Finset.mem_insert, List.mem_toFinset]
      constructor
      · rintro (rfl | hx)
        · exact .inl rfl
        · exact .inr (((descendantIdsQuery_spec acts c.id).1 x).mp hx)
      · rintro (rfl | hx)
        · exact .inl rfl
        · exact .inr (((descendantIdsQuery_spec acts c.id).1 x).mpr hx)
    have hanotin : ∀ c ∈ acts.filter (fun b => b.parent_id == some a.id),
        ¬ (c.id = a.id ∨ Reaches acts c.id a.id) := by
      intro c hc h
      obtain ⟨hcmem, hcp⟩ := hcsmem c hc
      have hlt : m a.id < m c.id := hm c hcmem a.id hcp
      rcases h with h | h
      · rw [h] at hlt
        exact lt_irrefl _ hlt
      · exact lt_irrefl _ (hlt.trans (reaches_rank hm h))
    refine ⟨?_, ?_, ?_, ?_⟩
    · rw [hflat, List.nodup_cons]
      constructor
      · intro hmem
        obtain ⟨c, hc, hcx⟩ := List.mem_flatMap.mp hmem
        exact hanotin c hc ((hblock_mem c hc a.id).mp hcx)
      · refine List.nodup_flatMap.mpr ⟨?_, ?_⟩
        · intro c hc
          exact (ih c (hcsmem c hc).1 (hcsfuel c hc)).1
        · have hcsnodup : (acts.filter (fun b => b.parent_id == some a.id)).Nodup :=
            (List.Nodup.of_map _ hid).filter _
          refine hcsnodup.imp_of_mem ?_
          intro c₁ c₂ hc₁ hc₂ hne
          intro x hx₁ hx₂
          obtain ⟨hm1, hp1⟩ := hcsmem c₁ hc₁
          obtain ⟨hm2, hp2⟩ := hcsmem c₂ hc₂
          exact subtree_disjoint hid hm hm1 hm2 hne (hp1.trans hp2.symm) x
            ((hblock_mem c₁ hc₁ x).mp hx₁) ((hblock_mem c₂ hc₂ x).mp hx₂)
    · rw [hflat, List.toFinset_cons]
      congr 1
      ext x
      simp only [List.mem_toFinset, List.mem_flatMap]
      constructor
      · rintro ⟨c, hc, hcx⟩
        obtain ⟨hcmem, hcp⟩ := hcsmem c hc
        have hstep : Reaches acts a.id x :=
          reaches_iff_step.mpr ⟨c, hcmem, hcp, (hblock_mem c hc x).mp hcx⟩
        exact ((descendantIdsQuery_spec acts a.id).1 x).mpr hstep
      · intro hx
        have hstep := reaches_iff_step.mp (((descendantIdsQuery_spec acts a.id).1 x).mp hx)
        obtain ⟨c, hcmem, hcp, hcx⟩ := hstep
        have hc : c ∈ acts.filter (fun b => b.parent_id == some a.id) :=
          List.mem_filter.mpr ⟨hcmem, by simpa using hcp⟩
        exact ⟨c, hc, (hblock_mem c hc x).mpr hcx⟩
    · intro x hx
      rw [allNodes_eq] at hx
      rcases List.mem_cons.mp hx with rfl | hx'
      · simpa [ActivityService.buildNode, ActivityTree.row] using ha
      · have hx'' := mem_allNodesL.mp (by
          simpa [ActivityService.buildNode, ActivityTree.children] using hx')
        obtain ⟨t, ht, hxt⟩ := hx''
        obtain ⟨c, hc, rfl⟩ := List.mem_map.mp ht
        exact (ih c (hcsmem c hc).1 (hcsfuel c hc)).2.2.1 x hxt
    · intro x hx
      rw [allNodes_eq] at hx
      rcases List.mem_cons.mp hx with rfl | hx'
      · show ((acts.filter (fun b => b.parent_id == some a.id)).map
            (ActivityService.buildNode acts k)).map ActivityTree.row = _
        rw [List.map_map]
        have : ActivityTree.row ∘ ActivityService.buildNode acts k = id := by
          funext c
          exact buildNode_row acts k c
        rw [this, List.map_id]
        rfl
      · have hx'' := mem_allNodesL.mp (by
          simpa [ActivityService.buildNode, ActivityTree.children] using hx')
        obtain ⟨t, ht, hxt⟩ := hx''
        obtain ⟨c, hc, rfl⟩ := List.mem_map.mp ht
        exact (ih c (hcsmem c hc).1 (hcsfuel c hc)).2.2.2 x hxt

/-- `flatMap` after `map` fuses. -/
theorem flatMap_map' {α β γ : Type _} (g : α → β) (f : β → List γ)
    (l : List α) : (l.map g).flatMap f = l.flatMap (fun x => f (g x)) := by
  induction l with
  | nil => rfl
  | cons x l ih => simp [ih]

/-- The row of a rebuilt node carries the node's id. -/
theorem row_id_eq_tid (x : ActivityTree) : x.row.id = x.tid := by
  cases x
  rfl

/-- In a ranked table with stored parents, every stored id lands in the
closure anchored at the root rows. -/
theorem root_coverage (db : List Activity) (m : Nat → Nat)
    (hm : ∀ a ∈ db, ∀ p, a.parent_id = some p → m p < m a.id)
    (hfk : ∀ a ∈ db, ∀ p, a.parent_id = some p → p ∈ db.map (·.id)) :
    ∀ b ∈ db, b.id ∈ ActivityService.cteClosure db
      ((db.filter (fun a => a.parent_id == (none : Option Nat))).map (·.id)) := by
  have hbase : ∀ y ∈ (db.filter
      (fun a => a.parent_id == (none : Option Nat))).map (·.id),
      y ∈ db.map (·.id) := by
    intro y hy
    obtain ⟨a, ha, rfl⟩ := List.mem_map.mp hy
    exact List.mem_map_of_mem _ (List.mem_filter.mp ha).1
  suffices H : ∀ k, ∀ b ∈ db, m b.id = k → b.id ∈ ActivityService.cteClosure db
      ((db.filter (fun a => a.parent_id == (none : Option Nat))).map (·.id)) by
    exact fun b hb => H (m b.id) b hb rfl
  intro k
  induction k using Nat.strong_induction_on with
  | _ k ih =>
    intro b hb hmb
    cases hbp : b.parent_id with
    | none =>
      refine subset_cteClosure db _ _ ?_
      exact List.mem_map_of_mem _ (List.mem_filter.mpr ⟨hb, by simpa using hbp⟩)
    | some p =>
      obtain ⟨bp, hbpmem, hbpid⟩ := List.mem_map.mp (hfk b hb p hbp)
      have hbpid' : bp.id = p := hbpid
      have hlt : m p < k := by
        rw [← hmb]
        exact hm b hb p hbp
      have hcl := ih (m bp.id) (by rw [hbpid']; exact hlt) bp hbpmem rfl
      refine cteClosure_closed hbase hcl ?_
      refine mem_childIds.mpr ⟨b, hb, ?_, rfl⟩
      rw [hbp, hbpid']

/-- Under the forest hypotheses the row-level CTE anchored at the roots
collects the whole table. -/
theorem treeRows_none_eq (db : List Activity) (m : Nat → Nat)
    (hm : ∀ a ∈ db, ∀ p, a.parent_id = some p → m p < m a.id)
    (hfk : ∀ a ∈ db, ∀ p, a.parent_id = some p → p ∈ db.map (·.id)) :
    ActivityService.treeRows db none = db := by
  unfold ActivityService.treeRows
  refine List.filter_eq_self.mpr (fun a ha => ?_)
  simp only [decide_eq_true_eq]
  exact root_coverage db m hm hfk a ha

/-- The tree CTE's denotation plus the in-memory reconstruction rebuild the
stored forest faithfully — for the null anchor the forest carries each root
and each of its descendants exactly once (its flattened rows are a
permutation of the table), every node's children list is exactly its direct
children from the stored data, and a non-existent anchor denotes an empty
forest. -/
theorem activityTreeQuery_spec (db : List Activity) (m : Nat → Nat)
    (hid : (db.map (·.id)).Nodup)
    (hm : ∀ a ∈ db, ∀ p, a.parent_id = some p → m p < m a.id)
    (hfk : ∀ a ∈ db, ∀ p, a.parent_id = some p → p ∈ db.map (·.id)) :
    (((ActivityService.activityTreeQuery db none).flatMap allNodes).map
      ActivityTree.row).Perm db ∧
    (∀ t ∈ ActivityService.activityTreeQuery db none, ∀ x ∈ allNodes t,
      x.children.map ActivityTree.row =
        db.filter (fun b => b.parent_id == some x.tid)) ∧
    (∀ p, p ∉ db.map (·.id) →
      ActivityService.activityTreeQuery db (some p) = []) := by
  have htr := treeRows_none_eq db m hm hfk
  have hga : ActivityService.activityTreeQuery db none =
      (db.filter (fun a => a.parent_id == (none : Option Nat))).map
        (ActivityService.buildNode db db.length) := by
    unfold ActivityService.activityTreeQuery
    rw [htr]
  have hmaster := buildNode_master db m hid hm db.length
  have hrootmem : ∀ r ∈ db.filter (fun a => a.parent_id == (none : Option Nat)),
      r ∈ db ∧ r.parent_id = none := by
    intro r hr
    have h := List.mem_filter.mp hr
    exact ⟨h.1, by simpa using h.2⟩
  have hfuel : ∀ r : Activity,
      db.countP (fun b => decide (m r.id < m b.id)) ≤ db.length :=
    fun r => List.countP_le_length _
  have hblock_mem : ∀ r ∈ db.filter (fun a => a.parent_id == (none : Option Nat)),
      ∀ x, x ∈ (allNodes (ActivityService.buildNode db db.length r)).map
          ActivityTree.tid ↔ (r.id = x ∨ Reaches db r.id x) := by
    intro r hr x
    rw [← List.mem_toFinset, (hmaster r (hrootmem r hr).1 (hfuel r)).2.1]
    simp only [Finset.mem_insert, List.mem_toFinset]
    constructor
    · rintro (rfl | hx)
      · exact .inl rfl
      · exact .inr (((descendantIdsQuery_spec db r.id).1 x).mp hx)
    · rintro (rfl | hx)
      · exact .inl rfl
      · exact .inr (((descendantIdsQuery_spec db r.id).1 x).mpr hx)
  have hbigtid : ((ActivityService.activityTreeQuery db none).flatMap
        allNodes).map ActivityTree.tid =
      (db.filter (fun a => a.parent_id == (none : Option Nat))).flatMap
        (fun r => (allNodes (ActivityService.buildNode db db.length r)).map
          ActivityTree.tid) := by
    rw [hga, flatMap_map', List.map_flatMap]
  have hbignodup : (((ActivityService.activityTreeQuery db none).flatMap
      allNodes).map ActivityTree.tid).Nodup := by
    rw [hbigtid]
    refine List.nodup_flatMap.mpr ⟨?_, ?_⟩
    · intro r hr
      exact (hmaster r (hrootmem r hr).1 (hfuel r)).1
    · have hrootsnodup :
          (db.filter (fun a => a.parent_id == (none : Option Nat))).Nodup :=
        (List.Nodup.of_map _ hid).filter _
      refine hrootsnodup.imp_of_mem ?_
      intro r₁ r₂ hr₁ hr₂ hne
      intro x hx₁ hx₂
      obtain ⟨hm1, hp1⟩ := hrootmem r₁ hr₁
      obtain ⟨hm2, hp2⟩ := hrootmem r₂ hr₂
      exact subtree_disjoint hid hm hm1 hm2 hne (hp1.trans hp2.symm) x
        ((hblock_mem r₁ hr₁ x).mp hx₁) ((hblock_mem r₂ hr₂ x).mp hx₂)
  have hbigfinset : (((ActivityService.activityTreeQuery db none).flatMap
      allNodes).map ActivityTree.tid).toFinset = (db.map (·.id)).toFinset := by
    ext x
    rw [hbigtid]
    simp only [List.mem_toFinset, List.mem_flatMap]
    constructor
    · rintro ⟨r, hr, hx⟩
      rcases (hblock_mem r hr x).mp hx with rfl | hx'
      · exact List.mem_map_of_mem _ (hrootmem r hr).1
      · obtain ⟨a, ha, rfl, _⟩ := reaches_inv_bottom hx'
        exact List.mem_map_of_mem _ ha
    · intro hx
      obtain ⟨b, hb, rfl⟩ := List.mem_map.mp hx
      have hcov := root_coverage db m hm hfk b hb
      rcases cteClosure_sound hcov with hbase | ⟨rid, hrid, hreach⟩
      · obtain ⟨r, hr, hridb⟩ := List.mem_map.mp hbase
        refine ⟨r, hr, (hblock_mem r hr b.id).mpr (.inl hridb)⟩
      · obtain ⟨r, hr, hridb⟩ := List.mem_map.mp hrid
        refine ⟨r, hr, (hblock_mem r hr b.id).mpr ?_⟩
        rw [hridb]
        exact .inr hreach
  have hrowmem : ∀ x ∈ (ActivityService.activityTreeQuery db none).flatMap
      allNodes, x.row ∈ db := by
    intro x hx
    rw [hga] at hx
    obtain ⟨t, ht, hxt⟩ := List.mem_flatMap.mp hx
    obtain ⟨r, hr, rfl⟩ := List.mem_map.mp ht
    exact (hmaster r (hrootmem r hr).1 (hfuel r)).2.2.1 x hxt
  refine ⟨?_, ?_, ?_⟩
  · have hrows_nodup : (((ActivityService.activityTreeQuery db none).flatMap
        allNodes).map ActivityTree.row).Nodup := by
      refine List.Nodup.of_map (·.id) ?_
      rw [List.map_map]
      have : ((·.id) ∘ ActivityTree.row) = ActivityTree.tid := by
        funext x
        exact row_id_eq_tid x
      rw [this]
      exact hbignodup
    have hdb_nodup : db.Nodup := List.Nodup.of_map _ hid
    refine List.perm_of_nodup_nodup_toFinset_eq hrows_nodup hdb_nodup ?_
    ext b
    simp only [List.mem_toFinset, List.mem_map]
    constructor
    · rintro ⟨x, hx, rfl⟩
      exact hrowmem x hx
    · intro hb
      have hbid : b.id ∈ (((ActivityService.activityTreeQuery db none).flatMap
          allNodes).map ActivityTree.tid).toFinset := by
        rw [hbigfinset]
        exact List.mem_toFinset.mpr (List.mem_map_of_mem _ hb)
      rw [List.mem_toFinset] at hbid
      obtain ⟨x, hx, hxid⟩ := List.mem_map.mp hbid
      refine ⟨x, hx, ?_⟩
      have hxrow : x.row ∈ db := hrowmem x hx
      refine key_inj (·.id) hid hxrow hb ?_
      show x.row.id = b.id
      rw [row_id_eq_tid, hxid]
  · intro t ht x hx
    rw [hga] at ht
    obtain ⟨r, hr, rfl⟩ := List.mem_map.mp ht
    exact (hmaster r (hrootmem r hr).1 (hfuel r)).2.2.2 x hx
  · intro p hp
    unfold ActivityService.activityTreeQuery ActivityService.treeRows
    have hbase : db.filter (fun a => a.parent_id == some p) = [] :=
      List.filter_eq_nil_iff.mpr (fun a ha hap =>
        hp (hfk a ha p (by simpa using hap)))
    rw [hbase]
    have hclo : ActivityService.cteClosure db [] = [] := by
      unfold ActivityService.cteClosure
      have hfix : ActivityService.expand db [] = [] := by
        simp [ActivityService.expand]
      exact Function.iterate_fixed hfix db.length
    simp [hclo]

/-- C5 is a code bug: every call of `get_activity_tree` fails with the
SQLAlchemy `ArgumentError` — activity_crud.py line 177 executes the bare CTE
instead of a `select` of it — including for a non-existent anchor, where the
claim expects an empty forest rather than an error; the reconstruction the
function builds in memory would rebuild the stored forest faithfully (here
both rows, exactly once). -/
theorem c5_build_tree_bug :
    ActivityService.get_activity_tree [⟨1, "a", none⟩, ⟨2, "b", some 1⟩]
        none = .error .argumentError ∧
    ActivityService.get_activity_tree [⟨1, "a", none⟩, ⟨2, "b", some 1⟩]
        (some 99) = .error .argumentError ∧
    (((ActivityService.activityTreeQuery
        [⟨1, "a", none⟩, ⟨2, "b", some 1⟩] none).flatMap allNodes).map
      ActivityTree.row).Perm [⟨1, "a", none⟩, ⟨2, "b", some 1⟩] :=
  ⟨rfl, rfl,
    (activityTreeQuery_spec [⟨1, "a", none⟩, ⟨2, "b", some 1⟩] (fun x => x)
      (by decide) (by decide) (by decide)).1⟩

/-- The classically-decided real comparison holds exactly for `≤`. -/
theorem realLe_eq {x y : ℝ} : realLe x y = true ↔ x ≤ y := by
  simp [realLe]

/-- The haversine distance from a point to itself is zero. -/
theorem haversine_self (lat lon : ℝ) : haversine lat lon lat lon = 0 := by
  simp [haversine]

/-- Unit conversion of a positive radius is positive. -/
theorem to_meters_pos (u : schemas.Unit) {r : ℚ} (hr : 0 < r) :
    0 < u.to_meters r := by
  cases u <;> simp [schemas.Unit.to_meters] <;> positivity

/-- C6: the geo radius query selects exactly the buildings whose haversine
distance from the center (Earth radius 6,371,000 m, degrees converted to
radians) is `≤` the radius in meters — the boundary is inclusive and a
building at the center is within range of every positive radius — and
returns precisely the organizations whose `building_id` lies in the selected
set, with an empty list (not an error) when no building is in range. -/
theorem c6_radius_query (buildings : List Building) (orgs : List Organization)
    (area : schemas.GeoSearchRadius) :
    (∀ o, o ∈ OrganizationService.get_by_radius buildings orgs area ↔
      (o ∈ orgs ∧ ∃ b ∈ buildings,
        haversine area.latitude area.longitude b.latitude b.longitude ≤
          ((area.unit.to_meters area.radius : ℚ) : ℝ) ∧
        o.building_id = some b.id)) ∧
    (∀ b ∈ buildings, b.latitude = area.latitude → b.longitude = area.longitude →
      0 < area.radius →
      haversine area.latitude area.longitude b.latitude b.longitude ≤
        ((area.unit.to_meters area.radius : ℚ) : ℝ)) ∧
    ((∀ b ∈ buildings,
        ¬ haversine area.latitude area.longitude b.latitude b.longitude ≤
          ((area.unit.to_meters area.radius : ℚ) : ℝ)) →
      OrganizationService.get_by_radius buildings orgs area = []) := by
  refine ⟨?_, ?_, ?_⟩
  · intro o
    unfold OrganizationService.get_by_radius
    by_cases hemp : ((buildings.filter (fun b =>
        realLe (haversine area.latitude area.longitude b.latitude b.longitude)
          ((area.unit.to_meters area.radius : ℚ) : ℝ))).map (·.id)).isEmpty
    · rw [if_pos hemp]
      simp only [List.isEmpty_iff, List.map_eq_nil_iff,
        List.filter_eq_nil_iff] at hemp
      refine iff_of_false (by simp) ?_
      rintro ⟨ho, b, hb, hd, hbid⟩
      exact absurd (realLe_eq.mpr hd) (by simpa using hemp b hb)
    · rw [if_neg hemp]
      rw [List.mem_filter]
      simp only [List.contains_eq_any_beq, List.any_eq_true, List.mem_map,
        List.mem_filter, beq_iff_eq, realLe_eq]
      constructor
      · rintro ⟨ho, x, ⟨y, ⟨b, ⟨hb, hd⟩, rfl⟩, rfl⟩, hbid⟩
        exact ⟨ho, b, hb, hd, hbid⟩
      · rintro ⟨ho, b, hb, hd, hbid⟩
        exact ⟨ho, some b.id, ⟨b.id, ⟨b, ⟨hb, hd⟩, rfl⟩, rfl⟩, hbid⟩
  · intro b hb hlat hlon hr
    rw [hlat, hlon, haversine_self]
    have := to_meters_pos area.unit hr
    exact le_of_lt (by exact_mod_cast this)
  · intro hall
    unfold OrganizationService.get_by_radius
    rw [if_pos]
    simp only [List.isEmpty_iff, List.map_eq_nil_iff, List.filter_eq_nil_iff]
    intro b hb
    simp only [realLe_eq]
    exact hall b hb

/-- Witness for C6: a building exactly at the center is within range of a
1-kilometer query. -/
theorem c6_radius_query_witness :
    haversine ((0 : ℚ) : ℝ) ((0 : ℚ) : ℝ) ((0 : ℚ) : ℝ) ((0 : ℚ) : ℝ) ≤
      ((schemas.Unit.to_meters .kilometer 1 : ℚ) : ℝ) :=
  (c6_radius_query [⟨1, "x", 0, 0⟩] [] ⟨0, 0, 1, .kilometer⟩).2.1
    ⟨1, "x", 0, 0⟩ (by simp) rfl rfl (by norm_num)

/-- A number-preserving rewrite of a duplicate-free phone table, filtered by
the number of a member, returns exactly the rewritten member. -/
theorem filter_number_map {db : List Phone} {f : Phone → Phone}
    (hf : ∀ q, (f q).number = q.number) (hnum : (db.map (·.number)).Nodup)
    {ph : Phone} (hmem : ph ∈ db) :
    (db.map f).filter (fun q => q.number == ph.number) = [f ph] := by
  induction db with
  | nil => cases hmem
  | cons h t ih =>
    rw [List.map_cons, List.nodup_cons] at hnum
    rcases List.mem_cons.mp hmem with rfl | hmem'
    · rw [List.map_cons, List.filter_cons, if_pos (by simp [hf])]
      have : (t.map f).filter (fun q => q.number == ph.number) = [] := by
        refine List.filter_eq_nil.mpr (fun q hq => ?_)
        obtain ⟨q0, hq0, rfl⟩ := List.mem_map.mp hq
        simp only [beq_iff_eq, decide_eq_true_eq, hf]
        intro hqn
        exact hnum.1 (hqn ▸ List.mem_map_of_mem (·.number) hq0)
      rw [this]
    · have hhnum : h.number ≠ ph.number := fun hh =>
        hnum.1 (hh ▸ List.mem_map_of_mem (·.number) hmem')
      rw [List.map_cons, List.filter_cons, if_neg (by simp [hf, hhnum])]
      exact ih hnum.2 hmem'

/-- C9: organization creation claims requested phone numbers regardless of
prior ownership — a number already stored as a row of another organization is
reassigned to the new organization (one row, no duplicate created) and
disappears from the prior owner's phone set; the operation does not fail. -/
theorem c9_create_claims_existing_phone
    (st : OrgStore) (req : schemas.OrganizationCreate) (newOrgId freshPhoneId : Nat)
    (hnum : (st.phones.map (·.number)).Nodup)
    (ph : Phone) (hmem : ph ∈ st.phones) (hreq : ph.number ∈ req.phone_numbers)
    (prior : Nat) (hprior : ph.organization_id = some prior)
    (hne : prior ≠ newOrgId) :
    ((OrganizationService.create st req newOrgId freshPhoneId).2.phones.filter
        (fun q => q.number == ph.number)) =
      [{ ph with organization_id := some newOrgId }] ∧
    { ph with organization_id := some newOrgId } ∈
      phonesOf (OrganizationService.create st req newOrgId freshPhoneId).2 newOrgId ∧
    (∀ q ∈ phonesOf (OrganizationService.create st req newOrgId freshPhoneId).2 prior,
      q.number ≠ ph.number) := by
  have hne' : req.phone_numbers.isEmpty = false := by
    cases hns : req.phone_numbers with
    | nil => rw [hns] at hreq; cases hreq
    | cons a l => rfl
  have hnewnum : ∀ q ∈ (OrganizationService.create st req newOrgId freshPhoneId).2.phones,
      q.organization_id ≠ some newOrgId →
      (decide (q.number ∈ req.phone_numbers) = false ∧ q ∈ st.phones) := by
    intro q hq hqo
    simp only [OrganizationService.create] at hq
    rcases List.mem_append.mp hq with hq1 | hq2
    · obtain ⟨q0, hq0, rfl⟩ := List.mem_map.mp hq1
      by_cases hd : decide (q0.number ∈ req.phone_numbers) = true
      · rw [if_pos hd] at hqo ⊢
        exact absurd rfl hqo
      · rw [if_neg (by simpa using hd)] at hqo ⊢
        exact ⟨by simpa using hd, hq0⟩
    · exfalso
      obtain ⟨e, _, rfl⟩ := List.mem_map.mp hq2
      exact hqo rfl
  refine ⟨?_, ?_, ?_⟩
  · simp only [OrganizationService.create, List.filter_append]
    have hA : (st.phones.map (fun p =>
        if decide (p.number ∈ req.phone_numbers) then
          { p with organization_id := some newOrgId } else p)).filter
        (fun q => q.number == ph.number) =
        [if decide (ph.number ∈ req.phone_numbers) then
          { ph with organization_id := some newOrgId } else ph] := by
      refine filter_number_map (fun q => ?_) hnum hmem
      by_cases hd : decide (q.number ∈ req.phone_numbers) = true
      · rw [if_pos hd]
      · rw [if_neg (by simpa using hd)]
    rw [hA, if_pos (by simpa using hreq)]
    have hB : (((req.phone_numbers.filter (fun n =>
          decide (n ∉ (PhoneService.get_phones_by_numbers st.phones
            req.phone_numbers).map (·.number)))).enum.map
          (fun e => Phone.mk (freshPhoneId + e.1) e.2 (some newOrgId))).filter
        (fun q => q.number == ph.number)) = [] := by
      refine List.filter_eq_nil.mpr (fun q hq => ?_)
      obtain ⟨e, he, rfl⟩ := List.mem_map.mp hq
      have he2 : e.2 ∈ req.phone_numbers.filter (fun n =>
          decide (n ∉ (PhoneService.get_phones_by_numbers st.phones
            req.phone_numbers).map (·.number))) := by
        have := List.mem_map_of_mem Prod.snd he
        rwa [List.enum_map_snd] at this
      have hnot := (List.mem_filter.mp he2).2
      simp only [decide_eq_true_eq] at hnot
      simp only [beq_iff_eq, decide_eq_true_eq]
      intro hcontra
      refine hnot ?_
      rw [hcontra]
      refine List.mem_map.mpr ⟨ph, ?_, rfl⟩
      simp only [PhoneService.get_phones_by_numbers, hne', Bool.false_eq_true,
        if_false, List.mem_filter]
      exact ⟨hmem, by simpa using hreq⟩
    rw [hB]
    rfl
  · simp only [phonesOf, OrganizationService.create, List.mem_filter]
    constructor
    · refine List.mem_append.mpr (.inl ?_)
      have := List.mem_map_of_mem (fun p =>
        if decide (p.number ∈ req.phone_numbers) then
          { p with organization_id := some newOrgId } else p) hmem
      simpa [hreq] using this
    · simp
  · intro q hq hqn
    have hq' := List.mem_filter.mp hq
    have horg : q.organization_id = some prior := by simpa using hq'.2
    have hnotnew : q.organization_id ≠ some newOrgId := by
      rw [horg]
      exact fun h => hne (by injection h)
    obtain ⟨hd, _⟩ := hnewnum q hq'.1 hnotnew
    simp only [decide_eq_false_iff_not] at hd
    exact hd (hqn ▸ hreq)

/-- Witness for C9 at a concrete store: creating organization 2 with the
number "555" previously owned by organization 1 reassigns the single
existing row and organization 1 loses it. -/
theorem c9_create_claims_existing_phone_witness :
    ((OrganizationService.create
        ⟨[⟨1, "one", some 10, []⟩], [⟨1, "555", some 1⟩], []⟩
        ⟨"two", 20, ["555"], []⟩ 2 5).2.phones.filter
      (fun q => q.number == "555")) = [⟨1, "555", some 2⟩] :=
  (c9_create_claims_existing_phone
    ⟨[⟨1, "one", some 10, []⟩], [⟨1, "555", some 1⟩], []⟩
    ⟨"two", 20, ["555"], []⟩ 2 5 (by simp) ⟨1, "555", some 1⟩ (by simp)
    (by simp) 1 rfl (by decide)).1

/-- C10 counterexample: an organization's phone set *can* be emptied through
update — a patch whose `phone_numbers` is the explicit empty list (not null)
replaces the phone set with nothing, deleting the previously owned row. -/
theorem c10_counterexample_empty_list_clears_phones :
    (OrganizationService.update
        ⟨[⟨1, "org", some 1, []⟩], [⟨1, "555", some 1⟩], []⟩ 1
        ⟨none, none, some [], none⟩ 5).map (fun r => phonesOf r.2 1) = some [] ∧
    phonesOf ⟨[⟨1, "org", some 1, []⟩], [⟨1, "555", some 1⟩], []⟩ 1 =
      [⟨1, "555", some 1⟩] := by
  constructor <;> rfl

/-- C10 (amended): in both partial updates a *null* patch field is treated as
absent — an all-null patch leaves the stored record (and the whole store)
unchanged while returning it; `parent_id` and `building_id` can never be
cleared to null through update; and a null `phone_numbers`/`activity_ids`
field leaves the associations untouched (only an explicitly provided list can
replace — or empty — them). -/
theorem c10_null_patch_treated_as_absent
    (st : OrgStore) (org_id : Nat) (db : List Activity) (activity_id : Nat)
    (fid : Nat) (hO : (st.orgs.map (·.id)).Nodup) (hA : (db.map (·.id)).Nodup) :
    (∀ o ∈ st.orgs, o.id = org_id →
      OrganizationService.update st org_id ⟨none, none, none, none⟩ fid =
        some (o, st)) ∧
    (∀ a ∈ db, a.id = activity_id →
      ActivityService.update db activity_id ⟨none, none⟩ = some (a, db)) ∧
    (∀ u r o, st.orgs.find? (fun x => x.id == org_id) = some o →
      OrganizationService.update st org_id u fid = some r →
      r.1.building_id = none → o.building_id = none) ∧
    (∀ u r a, ActivityService.get db activity_id = some a →
      ActivityService.update db activity_id u = some r →
      r.1.parent_id = none → a.parent_id = none) ∧
    (∀ u r, OrganizationService.update st org_id u fid = some r →
      (u.phone_numbers = none → r.2.phones = st.phones) ∧
      (∀ o, st.orgs.find? (fun x => x.id == org_id) = some o →
        u.activity_ids = none → r.1.activity_ids = o.activity_ids)) := by
  refine ⟨?_, ?_, ?_, ?_, ?_⟩
  · intro o ho hid
    cases hfind : st.orgs.find? (fun x => x.id == org_id) with
    | none =>
      have := List.find?_eq_none.mp hfind o ho
      simp [hid] at this
    | some o' =>
      have ho' : o' ∈ st.orgs := List.mem_of_find?_eq_some hfind
      have hid' : o'.id = org_id := by simpa using List.find?_some hfind
      have : o' = o := key_inj (·.id) hO ho' ho (by simp [hid', hid])
      subst this
      simp only [OrganizationService.update, hfind, Option.getD_none]
      have hmap : st.orgs.map (fun x => if x.id = org_id then o' else x) = st.orgs := by
        refine map_eq_self_of_fixed (fun x hx => ?_)
        by_cases hxid : x.id = org_id
        · rw [if_pos hxid]
          exact (key_inj (·.id) hO hx ho' (by simp [hid', hxid])).symm
        · rw [if_neg hxid]
      rw [hmap]
  · intro a ha hid
    cases hfind : ActivityService.get db activity_id with
    | none =>
      have := List.find?_eq_none.mp hfind a ha
      simp [hid] at this
    | some a' =>
      have ha' : a' ∈ db := List.mem_of_find?_eq_some hfind
      have hid' : a'.id = activity_id := by simpa using List.find?_some hfind
      have : a' = a := key_inj (·.id) hA ha' ha (by simp [hid', hid])
      subst this
      simp only [ActivityService.update, hfind, Option.getD_none]
      have hmap : db.map (fun b => if b.id = activity_id then a' else b) = db := by
        refine map_eq_self_of_fixed (fun b hb => ?_)
        by_cases hbid : b.id = activity_id
        · rw [if_pos hbid]
          exact (key_inj (·.id) hA hb ha' (by simp [hid', hbid])).symm
        · rw [if_neg hbid]
      rw [hmap]
  · intro u r o hfind hupd hnone
    simp only [OrganizationService.update, hfind] at hupd
    injection hupd with hupd
    subst hupd
    rcases hb : u.building_id with _ | b
    · simp only [hb] at hnone
      exact hnone
    · simp [hb] at hnone
  · intro u r a hfind hupd hnone
    simp only [ActivityService.update, hfind] at hupd
    injection hupd with hupd
    subst hupd
    rcases hp : u.parent_id with _ | p
    · simp only [hp] at hnone
      exact hnone
    · simp [hp] at hnone
  · intro u r hupd
    constructor
    · intro hpn
      cases hfind : st.orgs.find? (fun x => x.id == org_id) with
      | none =>
        simp only [OrganizationService.update, hfind] at hupd
        exact Option.noConfusion hupd
      | some o' =>
        simp only [OrganizationService.update, hfind] at hupd
        injection hupd with hupd
        subst hupd
        simp [hpn]
    · intro o hfind hids
      simp only [OrganizationService.update, hfind] at hupd
      injection hupd with hupd
      subst hupd
      simp [hids]

/-- Witness for C10 (amended) at a concrete store: the all-null patches return
the records and leave both stores unchanged. -/
theorem c10_null_patch_treated_as_absent_witness :
    OrganizationService.update
        ⟨[⟨1, "org", some 1, [4]⟩], [⟨1, "555", some 1⟩], []⟩ 1
        ⟨none, none, none, none⟩ 9 =
      some (⟨1, "org", some 1, [4]⟩,
            ⟨[⟨1, "org", some 1, [4]⟩], [⟨1, "555", some 1⟩], []⟩) ∧
    ActivityService.update [⟨1, "a", none⟩, ⟨2, "b", some 1⟩] 2 ⟨none, none⟩ =
      some (⟨2, "b", some 1⟩, [⟨1, "a", none⟩, ⟨2, "b", some 1⟩]) := by
  have h := c10_null_patch_treated_as_absent
    ⟨[⟨1, "org", some 1, [4]⟩], [⟨1, "555", some 1⟩], []⟩ 1
    [⟨1, "a", none⟩, ⟨2, "b", some 1⟩] 2 9 (by decide) (by decide)
  exact ⟨h.1 ⟨1, "org", some 1, [4]⟩ (by decide) rfl,
         h.2.1 ⟨2, "b", some 1⟩ (by decide) rfl⟩

end BusinessPoint
